import Mathlib

/-!
The static resolver of `probe/appclient/resolver.go`.

A shallow embedding of the static resolver of `probe/appclient`: the target
parser `prepare`, the endpoint builder `makeURLs`, the per-target resolution
`resolveOne`, the resolution pass `resolve` and the constructor `NewResolver`.

Go strings are embedded as Lean strings and handled through their list of
characters; every pattern the resolver looks for (`"//"`, `":443"`, `':'`,
`'['`, `']'`, `'%'`, `'.'`, digits) is ASCII.  Go's `int` is the 64 bit signed
integer of the usual build targets and is embedded as `Int` together with the
range check that `strconv.Atoi` performs.  A Go function returning
`(value, error)` whose value is ignored on error is embedded as `Except`;
`prepare` itself keeps the pair, because what it returns next to an error is
part of its contract.

The functions of the Go standard library that the resolver calls are modelled
after the standard library of the resolver's time (Go 1.6).
-/

namespace Appclient

/-- A Go `error`, identified by its message. -/
abbrev Error := String

/-! ## `strings` -/

namespace strings

/-- Go `strings.HasPrefix` on character lists. -/
def hasPrefixL : List Char → List Char → Bool
  | _, [] => true
  | [], _ :: _ => false
  | c :: s, p :: ps => c == p && hasPrefixL s ps

/-- Go `strings.Contains` on character lists: `substr` occurs at some offset. -/
def containsL : List Char → List Char → Bool
  | [], substr => hasPrefixL [] substr
  | c :: s, substr => hasPrefixL (c :: s) substr || containsL s substr

/-- Go `strings.HasPrefix`. -/
def HasPrefix (s pre : String) : Bool := hasPrefixL s.data pre.data

/-- Go `strings.Contains`. -/
def Contains (s substr : String) : Bool := containsL s.data substr.data

/-- Go `strings.HasSuffix`: `len(s) >= len(suffix) && s[len(s)-len(suffix):] == suffix`. -/
def HasSuffix (s suffix : String) : Bool :=
  decide (suffix.data.length ≤ s.data.length) &&
    decide (s.data.drop (s.data.length - suffix.data.length) = suffix.data)

/-- Go `strings.IndexByte` on character lists (`none` stands for `-1`). -/
def indexByteL : List Char → Char → Option Nat
  | [], _ => none
  | c :: s, b => if c = b then some 0 else (indexByteL s b).map (· + 1)

/-- Go `strings.LastIndex` for a single byte, on character lists. -/
def lastIndexByteL : List Char → Char → Option Nat
  | [], _ => none
  | c :: s, b =>
    match lastIndexByteL s b with
    | some i => some (i + 1)
    | none => if c = b then some 0 else none

end strings

/-! ## `strconv` -/

namespace strconv

/-- The size in bits of Go's `int`. -/
def IntSize : Nat := 64

/-- The value of a decimal digit, `none` for any other character. -/
def digitVal (c : Char) : Option Nat :=
  if '0' ≤ c ∧ c ≤ '9' then some (c.toNat - '0'.toNat) else none

/-- The digit loop of `strconv.ParseUint` in base 10, without the 64 bit
overflow check (the caller compares the exact value with its cutoff, and every
value that overflows 64 bits is beyond both cutoffs). -/
def parseDigits : List Char → Nat → Option Nat
  | [], acc => some acc
  | c :: s, acc =>
    match digitVal c with
    | some d => parseDigits s (acc * 10 + d)
    | none => none

/-- Go `strconv.Atoi`, that is `ParseInt(s, 10, 0)`: an optional sign followed
by at least one decimal digit and nothing else, in the range of `int`. -/
def Atoi (s : String) : Except Error Int :=
  match s.data with
  | [] => .error "invalid syntax"
  | c :: rest =>
    let neg := c == '-'
    let ds := if c == '+' || c == '-' then rest else c :: rest
    match ds with
    | [] => .error "invalid syntax"
    | d :: ds' =>
      match parseDigits (d :: ds') 0 with
      | none => .error "invalid syntax"
      | some un =>
        let cutoff := 2 ^ (IntSize - 1)
        if !neg && decide (cutoff ≤ un) then .error "value out of range"
        else if neg && decide (cutoff < un) then .error "value out of range"
        else .ok (if neg then - (un : Int) else (un : Int))

/-- The decimal digits of a natural number, most significant first
(`fuel` bounds the number of digits). -/
def natDigits : Nat → Nat → List Char → List Char
  | 0, _, acc => acc
  | fuel + 1, n, acc =>
    let acc' := Char.ofNat ('0'.toNat + n % 10) :: acc
    if n / 10 = 0 then acc' else natDigits fuel (n / 10) acc'

/-- Go `strconv.Itoa`. -/
def Itoa (i : Int) : String :=
  if i < 0 then ⟨'-' :: natDigits (i.natAbs + 1) i.natAbs []⟩
  else ⟨natDigits (i.natAbs + 1) i.natAbs []⟩

end strconv

/-! ## `net` -/

namespace net

/-- Go `net.SplitHostPort` (Go 1.6): the port starts after the last colon; a
host in square brackets must end right before that colon; a host without
brackets contains neither a colon nor a percent sign; no other bracket occurs. -/
def SplitHostPort (hostport : String) : Except Error (String × String) :=
  let hp := hostport.data
  match strings.lastIndexByteL hp ':' with
  | none => .error "missing port in address"
  | some i =>
    let finish (host : List Char) (j k : Nat) : Except Error (String × String) :=
      if (strings.indexByteL (hp.drop j) '[').isSome then .error "unexpected '[' in address"
      else if (strings.indexByteL (hp.drop k) ']').isSome then .error "unexpected ']' in address"
      else .ok (⟨host⟩, ⟨hp.drop (i + 1)⟩)
    if hp.head? = some '[' then
      match strings.indexByteL hp ']' with
      | none => .error "missing ']' in address"
      | some e =>
        if e + 1 = hp.length then .error "missing port in address"
        else if e + 1 = i then finish ((hp.take e).drop 1) 1 (e + 1)
        else if hp.get? (e + 1) = some ':' then .error "too many colons in address"
        else .error "missing port in address"
    else
      let host := hp.take i
      if (strings.indexByteL host ':').isSome then .error "too many colons in address"
      else if (strings.indexByteL host '%').isSome then .error "missing brackets in address"
      else finish host 0 0

/-- Go `net.JoinHostPort` (Go 1.6): a host with a colon or a percent sign is
put in square brackets. -/
def JoinHostPort (host port : String) : String :=
  if (strings.indexByteL host.data ':').isSome || (strings.indexByteL host.data '%').isSome then
    "[" ++ host ++ "]:" ++ port
  else host ++ ":" ++ port

/-- Go `net.IP`, a slice of bytes (`[]` is the nil address). -/
abbrev IP := List (Fin 256)

/-- Length of an IPv4 address in bytes. -/
def IPv4len : Nat := 4

/-- Length of an IPv6 address in bytes. -/
def IPv6len : Nat := 16

/-- Go `net.v4InV6Prefix`. -/
def v4InV6Prefix : IP := [0, 0, 0, 0, 0, 0, 0, 0, 0, 0, 0xff, 0xff]

/-- Go `net.IPv4`: the 16 byte form of an IPv4 address. -/
def IPv4 (a b c d : Fin 256) : IP := v4InV6Prefix ++ [a, b, c, d]

/-- Go `net.isZeros`. -/
def isZeros (p : IP) : Bool := p.all (· == 0)

/-- Go `IP.To4`: the 4 byte form of an address, `none` (nil) when the address
is not an IPv4 address. -/
def IP.To4 (ip : IP) : Option IP :=
  if ip.length = IPv4len then some ip
  else if ip.length = IPv6len ∧ isZeros (ip.take 10) = true ∧
      ip.get? 10 = some 0xff ∧ ip.get? 11 = some 0xff then
    some ((ip.take 16).drop 12)
  else none

/-- The hexadecimal digits of `appendHex`: no leading zeros, `0` for zero. -/
def hexDigits (n : Nat) : List Char :=
  (Nat.toDigits 16 n)

/-- The 16 bit groups of a 16 byte address. -/
def groups : IP → List Nat
  | a :: b :: rest => (a.val * 256 + b.val) :: groups rest
  | _ => []

/-- The length of the run of zero groups at the head of a list of groups. -/
def zeroRun : List Nat → Nat
  | 0 :: gs => zeroRun gs + 1
  | _ => 0

/-- The first longest run of zero groups, as `(start, length)` in groups,
scanning as `IP.String` does (a run, once taken, is skipped as a whole). -/
def longestZeroRun : Nat → Nat → List Nat → Nat × Nat → Nat × Nat
  | 0, _, _, best => best
  | _, _, [], best => best
  | fuel + 1, i, g :: gs, best =>
    let r := zeroRun (g :: gs)
    if 0 < r ∧ best.2 < r then longestZeroRun fuel (i + r) ((g :: gs).drop r) (i, r)
    else longestZeroRun fuel (i + 1) gs best

/-- The groups of an IPv6 address in hexadecimal, joined by colons. -/
def joinGroups : List Nat → List Char
  | [] => []
  | [g] => hexDigits g
  | g :: gs => hexDigits g ++ ':' :: joinGroups gs

/-- Go `IP.String` (Go 1.6): dotted decimal for an IPv4 address, the colon
notation with the longest run of at least two zero groups shortened to `::`
for an IPv6 address. -/
def IP.String (ip : IP) : String :=
  if ip.length = 0 then "<nil>"
  else
    match ip.To4 with
    | some [a, b, c, d] =>
      strconv.Itoa a.val ++ "." ++ strconv.Itoa b.val ++ "." ++
        strconv.Itoa c.val ++ "." ++ strconv.Itoa d.val
    | _ =>
      if ip.length ≠ IPv6len then "?"
      else
        let gs := groups ip
        let (e0, len) := longestZeroRun 8 0 gs (0, 0)
        if len ≤ 1 then ⟨joinGroups gs⟩
        else ⟨joinGroups (gs.take e0) ++ ':' :: ':' :: joinGroups (gs.drop (e0 + len))⟩

/-- Go `net.big`, the bound of the number parsers. -/
def big : Nat := 0xFFFFFF

/-- The loop of Go `net.dtoi`: decimal digits up to the first other
character; `none` when the number reaches `big`. -/
def dtoiLoop : List Char → Nat → Bool → Option (Nat × List Char)
  | [], n, any => if any then some (n, []) else none
  | c :: s, n, any =>
    match strconv.digitVal c with
    | some d => if big ≤ n * 10 + d then none else dtoiLoop s (n * 10 + d) true
    | none => if any then some (n, c :: s) else none

/-- Go `net.dtoi`: the decimal number at the head of `s` and what follows it. -/
def dtoi (s : List Char) : Option (Nat × List Char) := dtoiLoop s 0 false

/-- The value of a hexadecimal digit. -/
def hexVal (c : Char) : Option Nat :=
  if '0' ≤ c ∧ c ≤ '9' then some (c.toNat - '0'.toNat)
  else if 'a' ≤ c ∧ c ≤ 'f' then some (c.toNat - 'a'.toNat + 10)
  else if 'A' ≤ c ∧ c ≤ 'F' then some (c.toNat - 'A'.toNat + 10)
  else none

/-- The loop of Go `net.xtoi`. -/
def xtoiLoop : List Char → Nat → Bool → Option (Nat × List Char)
  | [], n, any => if any then some (n, []) else none
  | c :: s, n, any =>
    match hexVal c with
    | some d => if big ≤ n * 16 + d then none else xtoiLoop s (n * 16 + d) true
    | none => if any then some (n, c :: s) else none

/-- Go `net.xtoi`: the hexadecimal number at the head of `s` and what follows. -/
def xtoi (s : List Char) : Option (Nat × List Char) := xtoiLoop s 0 false

/-- The octets of Go `net.parseIPv4`, `j` counting the octets read so far. -/
def parseIPv4Loop : Nat → Nat → List Char → List (Fin 256) → Option (List (Fin 256) × List Char)
  | 0, _, s, p => some (p, s)
  | fuel + 1, j, s, p =>
    match s with
    | [] => none
    | c :: s' =>
      if j > 0 ∧ c ≠ '.' then none
      else
        match dtoi (if j > 0 then s' else c :: s') with
        | none => none
        | some (n, rest) =>
          if n > 0xFF then none
          else parseIPv4Loop fuel (j + 1) rest (p ++ [Fin.ofNat n])

/-- Go `net.parseIPv4`: four decimal octets separated by dots. -/
def parseIPv4 (s : List Char) : Option IP :=
  match parseIPv4Loop IPv4len 0 s [] with
  | some ([a, b, c, d], []) => some (IPv4 a b c d)
  | _ => none

/-- The main loop of Go `net.parseIPv6`: hexadecimal groups followed by colons,
with at most one ellipsis and possibly a trailing IPv4 address.  The state is
the rest of the string, the bytes written so far (their number is `j`) and the
position of the ellipsis; the result is the state at the end of the loop. -/
def parseIPv6Loop : Nat → List Char → List (Fin 256) → Option Nat →
    Option (List Char × List (Fin 256) × Option Nat)
  | 0, s, ip, ellipsis => some (s, ip, ellipsis)
  | fuel + 1, s, ip, ellipsis =>
    if ¬ ip.length < IPv6len then some (s, ip, ellipsis)
    else
      match xtoi s with
      | none => none
      | some (n, s1) =>
        if n > 0xFFFF then none
        else if s1.head? = some '.' then
          if ellipsis.isNone ∧ ip.length ≠ IPv6len - IPv4len then none
          else if ip.length + IPv4len > IPv6len then none
          else
            match parseIPv4 s with
            | none => none
            | some ip4 => some ([], ip ++ ip4.drop 12, ellipsis)
        else
          let ip' := ip ++ [Fin.ofNat (n / 256), Fin.ofNat n]
          match s1 with
          | [] => some ([], ip', ellipsis)
          | c :: s2 =>
            if c ≠ ':' ∨ s2 = [] then none
            else if s2.head? = some ':' then
              if ellipsis.isSome then none
              else if s2.tail = [] then some ([], ip', some ip'.length)
              else parseIPv6Loop fuel s2.tail ip' (some ip'.length)
            else parseIPv6Loop fuel s2 ip' ellipsis

/-- Go `net.parseIPv6` without zone. -/
def parseIPv6 (s : List Char) : Option IP :=
  let leading := strings.hasPrefixL s [':', ':']
  let s0 := if leading then s.drop 2 else s
  if leading ∧ s0 = [] then some (List.replicate IPv6len 0)
  else
    match parseIPv6Loop IPv6len s0 [] (if leading then some 0 else none) with
    | none => none
    | some (rest, ip, ellipsis) =>
      if rest ≠ [] then none
      else if ip.length < IPv6len then
        match ellipsis with
        | none => none
        | some e => some (ip.take e ++ List.replicate (IPv6len - ip.length) 0 ++ ip.drop e)
      else if ellipsis.isSome then none
      else some ip

/-- The scan of Go `net.ParseIP`: the first dot or colon decides between the
IPv4 and the IPv6 parser; without either the string is no address. -/
def parseIPScan (whole : List Char) : List Char → Option IP
  | [] => none
  | c :: s =>
    if c = '.' then parseIPv4 whole
    else if c = ':' then parseIPv6 whole
    else parseIPScan whole s

/-- Go `net.ParseIP`: `none` is the nil address of a string that is no IP
literal. -/
def ParseIP (s : String) : Option IP := parseIPScan s.data s.data

end net

/-! ## `net/url` -/

namespace url

/-- Go `url.Userinfo`. -/
structure Userinfo where
  username : String
  password : String
  passwordSet : Bool
  deriving DecidableEq, Repr

/-- Go `url.URL` (Go 1.6). -/
structure URL where
  Scheme : String
  Opaque : String
  User : Option Userinfo
  Host : String
  Path : String
  RawPath : String
  RawQuery : String
  Fragment : String
  deriving DecidableEq, Repr

/-- Go `url.split`: cut `s` at the first `c`, dropping it when `cutc`. -/
def split (s : List Char) (c : Char) (cutc : Bool) : List Char × List Char :=
  match strings.indexByteL s c with
  | none => (s, [])
  | some i => if cutc then (s.take i, s.drop (i + 1)) else (s.take i, s.drop i)

/-- The loop of Go `url.getscheme`, `i` being the position of the head of the
second list in `rawurl`. -/
def getschemeLoop (rawurl : List Char) : Nat → List Char → Except Error (List Char × List Char)
  | _, [] => .ok ([], rawurl)
  | i, c :: s =>
    if c.isAlpha then getschemeLoop rawurl (i + 1) s
    else if c.isDigit ∨ c = '+' ∨ c = '-' ∨ c = '.' then
      if i = 0 then .ok ([], rawurl) else getschemeLoop rawurl (i + 1) s
    else if c = ':' then
      if i = 0 then .error "missing protocol scheme"
      else .ok (rawurl.take i, rawurl.drop (i + 1))
    else .ok ([], rawurl)

/-- Go `url.getscheme`: a leading `scheme:` and what follows it. -/
def getscheme (rawurl : List Char) : Except Error (List Char × List Char) :=
  getschemeLoop rawurl 0 rawurl

/-- Go `url.validOptionalPort`: empty, or a colon followed by digits. -/
def validOptionalPort : List Char → Bool
  | [] => true
  | c :: s => c == ':' && s.all Char.isDigit

/-- Go `url.parseHost` on a host without percent signs: a host that starts
with `[` needs a closing `]` followed by an optional port. -/
def parseHost (host : List Char) : Except Error (List Char) :=
  if host.head? = some '[' then
    match strings.lastIndexByteL host ']' with
    | none => .error "missing ']' in host"
    | some i =>
      if validOptionalPort (host.drop (i + 1)) then .ok host
      else .error "invalid port after host"
  else .ok host

/-- The characters of the URLs covered by the model of `url.Parse`: letters,
digits and the punctuation that Go neither escapes nor rejects in a host, a
path, a query or a fragment. -/
def plainChar (c : Char) : Bool :=
  c.isAlphanum || "-._~:/?#[]$&+,;=".data.contains c

/-- Model of Go `url.Parse` (Go 1.6) on the URLs written with `plainChar`
characters only, that is without userinfo, percent escapes and characters
that need escaping: cut the fragment at `#`, take the scheme, cut the query at
`?`, treat a rootless rest after a scheme as opaque, and read the authority
between `//` and the next `/` as the host.  A string with any other character
is outside the model and is answered with an error; `prepare` below takes its
parser as an argument and only the worked examples use this one. -/
def Parse (rawurl : String) : Except Error URL :=
  if ¬ rawurl.data.all plainChar then .error "character outside the modelled URLs"
  else
    let (u, frag) := split rawurl.data '#' true
    match getscheme u with
    | .error e => .error e
    | .ok (scheme, rest) =>
      let scheme := scheme.map Char.toLower
      let (rest, rawQuery) := split rest '?' true
      if ¬ strings.hasPrefixL rest ['/'] ∧ scheme ≠ [] then
        .ok ⟨⟨scheme⟩, ⟨rest⟩, none, "", "", "", ⟨rawQuery⟩, ⟨frag⟩⟩
      else if (scheme ≠ [] ∨ ¬ strings.hasPrefixL rest ['/', '/', '/']) ∧
          strings.hasPrefixL rest ['/', '/'] then
        let (authority, rest) := split (rest.drop 2) '/' false
        match parseHost authority with
        | .error e => .error e
        | .ok host => .ok ⟨⟨scheme⟩, "", none, ⟨host⟩, ⟨rest⟩, "", ⟨rawQuery⟩, ⟨frag⟩⟩
      else .ok ⟨⟨scheme⟩, "", none, "", ⟨rest⟩, "", ⟨rawQuery⟩, ⟨frag⟩⟩

end url

/-! ## The resolver: targets -/

/-- Go `target`: one entry of the monitored set. -/
structure target where
  /-- the original url string -/
  original : String
  /-- the parsed url -/
  url : url.URL
  /-- the hostname (without port) from the url -/
  hostname : String
  /-- the port, or a sensible default -/
  port : Int
  deriving DecidableEq, Repr

/-- Go `target.String`. -/
def target.String (t : target) : String :=
  net.JoinHostPort t.hostname (strconv.Itoa t.port)

/-- The loop of `prepare`, `targets` being the slice built so far.  `parse` is
`url.Parse` and `AppPort` is `xfer.AppPort`, the default application port,
which is declared outside this file. -/
def prepareLoop (parse : String → Except Error url.URL) (AppPort : Int) :
    List String → List target → List target × Option Error
  | [], targets => (targets, none)
  | u :: urls, targets =>
    -- naked hostnames (such as "localhost") are interpreted as relative URLs
    -- so we add a scheme if u doesn't have one.
    let u :=
      if ¬ strings.Contains u "//" then
        if strings.HasSuffix u ":443" then "https://" ++ u else "http://" ++ u
      else u
    match parse u with
    | .error err => ([], some err)
    | .ok parsed =>
      if strings.Contains parsed.Host ":" then
        match net.SplitHostPort parsed.Host with
        | .error err => ([], some err)
        | .ok (hostname, portStr) =>
          match strconv.Atoi portStr with
          | .error err => ([], some err)
          | .ok port =>
            prepareLoop parse AppPort urls
              (targets ++ [{ original := u, url := parsed, hostname := hostname, port := port }])
      else
        prepareLoop parse AppPort urls
          (targets ++ [{ original := u, url := parsed, hostname := parsed.Host, port := AppPort }])

/-- Go `prepare`: the targets of the raw strings and a nil error, or no target
and the error of the first string that fails. -/
def prepare (parse : String → Except Error url.URL) (AppPort : Int) (urls : List String) :
    List target × Option Error :=
  prepareLoop parse AppPort urls []

/-! ## The resolver: resolution

The resolver acts on the world through its lookup function, its setters and
the logger.  The world is a value `env : ω` that the lookup function and the
setters read and change as they please; next to it the state keeps a trace of
what the resolver did, in the order of execution. -/

/-- What the resolver does to the outside: a call of the lookup function, a
warning written with `log.Warnf`, and a call of the setter at an index of
`r.setters`. -/
inductive Event where
  | lookup (host : String)
  | warn (message : String)
  | set (index : Nat) (hostname : String) (urls : List url.URL)
  deriving DecidableEq, Repr

/-- Go `LookupIP`: the addresses and the error of looking up a host, together
with what the lookup did to the world. -/
abbrev LookupIP (ω : Type) := String → ω → (List net.IP × Option Error) × ω

/-- Go `setter`: a callback taking a hostname and its endpoints. -/
abbrev setter (ω : Type) := String → List url.URL → ω → ω

/-- The control point of the goroutine running `staticResolver.loop`: before
its first `resolve`, blocked in `select`, or returned. -/
inductive loopPC where
  | entry
  | waiting
  | returned
  deriving DecidableEq, Repr

/-- Go `staticResolver`: the fields that never change.  `failedResolutions`
(a map) and `quit` (a channel) are references; what they refer to is part of
`State`. -/
structure staticResolver (ω : Type) where
  setters : List (setter ω)
  targets : List target
  lookup : LookupIP ω

/-- The state a resolver runs in: the world, the trace of the resolver's
actions, the contents of `r.failedResolutions`, whether `r.quit` is closed,
whether the ticker's channel holds a tick, and the goroutine of `r.loop`
(`none` as long as none was started). -/
structure State (ω : Type) where
  env : ω
  trace : List Event
  failedResolutions : Finset String
  quitClosed : Bool
  tickPending : Bool
  loop : Option loopPC

/-- The loop of `makeURLs`, run on the memory cell that the pointer `t.url`
refers to: every round copies the cell into `u` (`u := *t.url`), sets the host
of the copy and appends the copy.  The result is the cell at the end of the
loop together with the slice. -/
def makeURLsLoop (t : target) : List String → url.URL → List url.URL → url.URL × List url.URL
  | [], cell, result => (cell, result)
  | ip :: ips, cell, result =>
    let u := cell
    let u := { u with Host := net.JoinHostPort ip (strconv.Itoa t.port) }
    makeURLsLoop t ips cell (result ++ [u])

/-- Go `makeURLs`: the slice that the loop builds, the cell of `t.url` holding
the url of the target when the loop starts. -/
def makeURLs (t : target) (ips : List String) : List url.URL :=
  (makeURLsLoop t ips t.url []).2

/-- What the pointer `t.url` refers to when `makeURLs` returns. -/
def makeURLsTemplate (t : target) (ips : List String) : url.URL :=
  (makeURLsLoop t ips t.url []).1

/-- The last loop of `resolveOne`: the string forms of the addresses that have
a 4 byte form (for now, ignore IPv6). -/
def endpointsLoop : List net.IP → List String → List String
  | [], endpoints => endpoints
  | addr :: addrs, endpoints =>
    if addr.To4 = none then endpointsLoop addrs endpoints
    else endpointsLoop addrs (endpoints ++ [addr.String])

/-- The text of the warning of `resolveOne`, `"Cannot resolve '%s': %v"`. -/
def cannotResolve (hostname : String) (err : Error) : String :=
  "Cannot resolve '" ++ hostname ++ "': " ++ err

/-- Go `staticResolver.resolveOne`: the endpoints of a target.  An IP literal
is its own address; any other hostname is looked up, a failing lookup is
logged once and remembered in `failedResolutions` until a lookup succeeds. -/
def staticResolver.resolveOne {ω : Type} (r : staticResolver ω) (t : target) (s : State ω) :
    List String × State ω :=
  match net.ParseIP t.hostname with
  | some addr => (endpointsLoop [addr] [], s)
  | none =>
    let (res, env) := r.lookup t.hostname s.env
    let s := { s with env := env, trace := s.trace ++ [Event.lookup t.hostname] }
    match res.2 with
    | some err =>
      if t.hostname ∉ s.failedResolutions then
        ([], { s with
          trace := s.trace ++ [Event.warn (cannotResolve t.hostname err)]
          -- Only log the error once
          failedResolutions := insert t.hostname s.failedResolutions })
      else ([], s)
    | none =>
      -- Allow logging errors in future resolutions
      let s := { s with failedResolutions := s.failedResolutions.erase t.hostname }
      (endpointsLoop res.1 [], s)

/-- The inner loop of `resolve`: call the setters from index `i` on. -/
def callSetters {ω : Type} (hostname : String) (urls : List url.URL) :
    List (setter ω) → Nat → State ω → State ω
  | [], _, s => s
  | f :: setters, i, s =>
    callSetters hostname urls setters (i + 1)
      { s with env := f hostname urls s.env, trace := s.trace ++ [Event.set i hostname urls] }

/-- The outer loop of `resolve` over the targets. -/
def resolveLoop {ω : Type} (r : staticResolver ω) : List target → State ω → State ω
  | [], s => s
  | t :: targets, s =>
    let (ips, s) := r.resolveOne t s
    let urls := makeURLs t ips
    resolveLoop r targets (callSetters t.hostname urls r.setters 0 s)

/-- Go `staticResolver.resolve`: one resolution pass. -/
def staticResolver.resolve {ω : Type} (r : staticResolver ω) (s : State ω) : State ω :=
  resolveLoop r r.targets s

/-- Go `NewResolver`: the resolver and a nil error, with the goroutine of
`r.loop` started on a fresh map and a fresh channel, or no resolver and the
error of `prepare`, with nothing else done. -/
def NewResolver {ω : Type} (parse : String → Except Error url.URL) (AppPort : Int)
    (targets : List String) (lookup : LookupIP ω) (setters : List (setter ω)) (s : State ω) :
    (Option (staticResolver ω) × Option Error) × State ω :=
  match prepare parse AppPort targets with
  | (_, some err) => ((none, some err), s)
  | (processed, none) =>
    let r : staticResolver ω := { targets := processed, setters := setters, lookup := lookup }
    ((some r, none),
      { s with failedResolutions := ∅, quitClosed := false, loop := some loopPC.entry })

/-! ## The ticker, `Stop` and the loop -/

namespace time

/-- Go `time.Second`, in nanoseconds (`time.Duration` is an `int64` count of
nanoseconds). -/
def Second : Int := 1000000000

end time

/-- Go `dnsPollInterval`. -/
def dnsPollInterval : Int := 10 * time.Second

/-- The value of an `int64` expression whose exact value is `x`: Go wraps
around at 64 bits. -/
def wrapInt64 (x : Int) : Int := (x + 2 ^ 63) % 2 ^ 64 - 2 ^ 63

/-- The goroutine of `fastStartTicker` at the top of its loop: the interval `d`
it is about to sleep and whether the channel `c` (of capacity 1) holds a
tick. -/
structure tickerState where
  d : Int
  c : Bool
  deriving DecidableEq, Repr

/-- Go `fastStartTicker` up to the loop: an empty channel and `d` at one
second. -/
def fastStartTicker : tickerState := { d := 1 * time.Second, c := false }

/-- One round of the loop of `fastStartTicker`, after `time.Sleep(d)`: double
`d`, cap it at `duration`, and send a tick unless the channel is full. -/
def fastStartTickerRound (duration : Int) (t : tickerState) : tickerState :=
  let d := wrapInt64 (t.d * 2)
  let d := if d > duration then duration else d
  { d := d, c := if t.c then t.c else true }

/-- The state of the ticker after `n` rounds when nobody receives. -/
def fastStartTickerAfter (duration : Int) : Nat → tickerState
  | 0 => fastStartTicker
  | n + 1 => fastStartTickerRound duration (fastStartTickerAfter duration n)

/-- The interval of the sleep of round `n` (from 0) of `fastStartTicker`. -/
def sleepInterval (duration : Int) (n : Nat) : Int :=
  (fastStartTickerAfter duration n).d

/-- Go `staticResolver.Stop`: `close(r.quit)`.  Closing a closed channel
panics; the panic is the error of the result. -/
def staticResolver.Stop {ω : Type} (_r : staticResolver ω) (s : State ω) :
    Except Error (State ω) :=
  if s.quitClosed then .error "close of closed channel"
  else .ok { s with quitClosed := true }

/-- The case that a `select` of `loop` takes. -/
inductive selectCase where
  | tick
  | quit
  deriving DecidableEq, Repr

/-- One step of the goroutine of `staticResolver.loop`.  At its entry it runs
`resolve` and makes the ticker, whose channel is empty.  Waiting in `select`,
it takes a case that can proceed, `c` being the choice of the Go runtime among
the cases that can: a pending tick is received and `resolve` runs, a closed
`quit` makes the loop return.  `none`: the goroutine cannot take this step
(no goroutine, a returned one, or a case that cannot proceed). -/
def staticResolver.loopStep {ω : Type} (r : staticResolver ω) (c : selectCase) (s : State ω) :
    Option (State ω) :=
  match s.loop with
  | some loopPC.entry =>
    some { r.resolve s with tickPending := false, loop := some loopPC.waiting }
  | some loopPC.waiting =>
    match c with
    | selectCase.tick =>
      if s.tickPending then some (r.resolve { s with tickPending := false }) else none
    | selectCase.quit =>
      if s.quitClosed then some { s with loop := some loopPC.returned } else none
  | _ => none

/-- The ticker delivers a tick to the channel that `loop` receives from (the
send of `fastStartTickerRound`, seen from the resolver). -/
def tickArrives {ω : Type} (s : State ω) : State ω :=
  { s with tickPending := true }

/-! ## Definitions used to state the properties -/

/-- The scheme step of the target parser in the words of its description: a
string that contains `//` is taken as it is, any other string gets `https://`
in front when it ends with `:443` and `http://` otherwise. -/
def withScheme (u : String) : String :=
  if strings.Contains u "//" then u
  else if strings.HasSuffix u ":443" then "https://" ++ u
  else "http://" ++ u

/-- The target of one raw string, as one round of the loop of `prepare`
computes it from the parsed URL. -/
def targetOf (parse : String → Except Error url.URL) (AppPort : Int) (u : String) :
    Except Error target :=
  match parse (withScheme u) with
  | .error err => .error err
  | .ok parsed =>
    if strings.Contains parsed.Host ":" then
      match net.SplitHostPort parsed.Host with
      | .error err => .error err
      | .ok (hostname, portStr) =>
        match strconv.Atoi portStr with
        | .error err => .error err
        | .ok port => .ok ⟨withScheme u, parsed, hostname, port⟩
    else .ok ⟨withScheme u, parsed, parsed.Host, AppPort⟩

/-- The number of warnings in a trace. -/
def warnings (trace : List Event) : Nat :=
  trace.countP (fun e => match e with
    | Event.warn _ => true
    | _ => false)

/-- The setter calls of a trace, in order. -/
def setEvents (trace : List Event) : List Event :=
  trace.filter (fun e => match e with
    | Event.set _ _ _ => true
    | _ => false)

/-- The number of maximal runs of consecutive failures in a sequence of lookup
outcomes (`true` is a failure); `prev` is the outcome before the sequence. -/
def failureRuns : Bool → List Bool → Nat
  | _, [] => 0
  | prev, failed :: rest => (if failed && !prev then 1 else 0) + failureRuns failed rest

/-- Successive calls of `resolveOne` for one target, the world being `e` at the
time of the call that stands for `e` in the list. -/
def resolveSeq {ω : Type} (r : staticResolver ω) (t : target) : List ω → State ω → State ω
  | [], s => s
  | e :: envs, s => resolveSeq r t envs (r.resolveOne t { s with env := e }).2

/-! ## Strings -/

theorem strings.hasPrefixL_iff (s p : List Char) :
    strings.hasPrefixL s p = true ↔ ∃ b, s = p ++ b := by
  induction p generalizing s with
  | nil => simp [strings.hasPrefixL]
  | cons x p ih =>
    cases s with
    | nil => simp [strings.hasPrefixL]
    | cons c s =>
      simp only [strings.hasPrefixL, Bool.and_eq_true, beq_iff_eq, ih, List.cons_append,
        List.cons.injEq]
      constructor
      · rintro ⟨rfl, b, rfl⟩
        exact ⟨b, rfl, rfl⟩
      · rintro ⟨b, rfl, rfl⟩
        exact ⟨rfl, b, rfl⟩

theorem strings.containsL_iff (s sub : List Char) :
    strings.containsL s sub = true ↔ ∃ a b, s = a ++ sub ++ b := by
  induction s with
  | nil =>
    simp only [strings.containsL, strings.hasPrefixL_iff]
    constructor
    · rintro ⟨b, h⟩
      exact ⟨[], b, h⟩
    · rintro ⟨a, b, h⟩
      have h1 : a = [] := by
        cases a with
        | nil => rfl
        | cons x a => simp at h
      subst h1
      exact ⟨b, h⟩
  | cons c s ih =>
    simp only [strings.containsL, Bool.or_eq_true, strings.hasPrefixL_iff, ih]
    constructor
    · rintro (⟨b, h⟩ | ⟨a, b, h⟩)
      · exact ⟨[], b, h⟩
      · exact ⟨c :: a, b, by simp [h]⟩
    · rintro ⟨a, b, h⟩
      cases a with
      | nil => exact Or.inl ⟨b, h⟩
      | cons x a =>
        simp only [List.cons_append, List.cons.injEq] at h
        exact Or.inr ⟨a, b, h.2⟩

theorem strings.HasSuffix_iff (s suffix : String) :
    strings.HasSuffix s suffix = true ↔ ∃ a, s.data = a ++ suffix.data := by
  simp only [strings.HasSuffix, Bool.and_eq_true, decide_eq_true_eq]
  constructor
  · rintro ⟨_, h⟩
    refine ⟨s.data.take (s.data.length - suffix.data.length), ?_⟩
    conv_lhs => rw [← List.take_append_drop (s.data.length - suffix.data.length) s.data]
    rw [h]
  · rintro ⟨a, h⟩
    rw [h]
    simp

theorem strings.Contains_iff (s sub : String) :
    strings.Contains s sub = true ↔ ∃ a b, s.data = a ++ sub.data ++ b :=
  strings.containsL_iff s.data sub.data

/-! ## `prepare` -/

theorem prepareLoop_cons (parse : String → Except Error url.URL) (A : Int) (u : String)
    (urls : List String) (acc : List target) :
    prepareLoop parse A (u :: urls) acc =
      match targetOf parse A u with
      | .error err => ([], some err)
      | .ok t => prepareLoop parse A urls (acc ++ [t]) := by
  have hs : (if ¬ strings.Contains u "//" = true then
        if strings.HasSuffix u ":443" = true then "https://" ++ u else "http://" ++ u
      else u) = withScheme u := by
    unfold withScheme
    by_cases h : strings.Contains u "//" = true <;> simp [h]
  simp only [prepareLoop, targetOf, hs]
  cases parse (withScheme u) with
  | error e => rfl
  | ok p =>
    simp only
    by_cases hc : strings.Contains p.Host ":" = true
    · simp only [hc, if_true]
      cases net.SplitHostPort p.Host with
      | error e => rfl
      | ok hp =>
        obtain ⟨h, ps⟩ := hp
        simp only
        cases strconv.Atoi ps with
        | error e => rfl
        | ok n => rfl
    · simp only [hc, if_false]
      rfl

/-- A successful run of the loop appends one target per raw string, each the
target of its own string. -/
theorem prepareLoop_ok (parse : String → Except Error url.URL) (A : Int) (urls : List String)
    (acc ts : List target) (h : prepareLoop parse A urls acc = (ts, none)) :
    ∃ ts', ts = acc ++ ts' ∧ List.Forall₂ (fun u t => targetOf parse A u = .ok t) urls ts' := by
  induction urls generalizing acc with
  | nil =>
    simp only [prepareLoop, Prod.mk.injEq, and_true] at h
    exact ⟨[], by simp [h], List.Forall₂.nil⟩
  | cons u urls ih =>
    rw [prepareLoop_cons] at h
    cases ht : targetOf parse A u with
    | error e => simp [ht] at h
    | ok t =>
      simp only [ht] at h
      obtain ⟨ts', rfl, hf⟩ := ih _ h
      exact ⟨t :: ts', by simp, List.Forall₂.cons ht hf⟩

/-- The loop succeeds when every raw string has a target. -/
theorem prepareLoop_of_forall₂ (parse : String → Except Error url.URL) (A : Int)
    (urls : List String) (acc ts' : List target)
    (h : List.Forall₂ (fun u t => targetOf parse A u = .ok t) urls ts') :
    prepareLoop parse A urls acc = (acc ++ ts', none) := by
  induction h generalizing acc with
  | nil => simp [prepareLoop]
  | cons ht _ ih =>
    rw [prepareLoop_cons, ht]
    simp only
    rw [ih]
    simp

/-- The loop returns no target and an error as soon as one raw string has no
target. -/
theorem prepareLoop_error (parse : String → Except Error url.URL) (A : Int) (urls : List String)
    (acc : List target) (h : ∃ u ∈ urls, ∃ e, targetOf parse A u = .error e) :
    ∃ e, prepareLoop parse A urls acc = ([], some e) := by
  induction urls generalizing acc with
  | nil => simp at h
  | cons u urls ih =>
    rw [prepareLoop_cons]
    cases ht : targetOf parse A u with
    | error e => exact ⟨e, rfl⟩
    | ok t =>
      simp only
      apply ih
      obtain ⟨v, hv, e, he⟩ := h
      rcases List.mem_cons.1 hv with rfl | hv
      · rw [ht] at he
        cases he
      · exact ⟨v, hv, e, he⟩

theorem strings.indexByteL_isSome_iff (s : List Char) (b : Char) :
    (strings.indexByteL s b).isSome = true ↔ b ∈ s := by
  induction s with
  | nil => simp [strings.indexByteL]
  | cons c s ih =>
    by_cases h : c = b
    · simp [strings.indexByteL, h]
    · have h' : ¬ b = c := fun e => h e.symm
      simp [strings.indexByteL, h, h', ← ih]

theorem strings.lastIndexByteL_get (s : List Char) (b : Char) (i : Nat)
    (h : strings.lastIndexByteL s b = some i) : s.get? i = some b := by
  induction s generalizing i with
  | nil => simp [strings.lastIndexByteL] at h
  | cons c s ih =>
    simp only [strings.lastIndexByteL] at h
    cases hl : strings.lastIndexByteL s b with
    | some j =>
      simp only [hl, Option.some.injEq] at h
      subst h
      simpa using ih j hl
    | none =>
      simp only [hl] at h
      by_cases hc : c = b
      · simp only [hc, if_true, Option.some.injEq] at h
        subst h
        simp [hc]
      · simp [hc] at h

/-- The host part of a successful `SplitHostPort` is empty exactly when the
address begins with the colon of the port or with empty brackets. -/
theorem net.SplitHostPort_host_empty (hp h ps : String)
    (hs : net.SplitHostPort hp = .ok (h, ps)) :
    h = "" ↔ (strings.HasPrefix hp ":" = true ∨ strings.HasPrefix hp "[]:" = true) := by
  have e1 : (":" : String).data = [':'] := rfl
  have e2 : ("[]:" : String).data = ['[', ']', ':'] := rfl
  have hempty : ∀ l : List Char, (String.mk l = "") ↔ l = [] := by
    intro l
    constructor
    · intro h
      have := congrArg String.data h
      simpa using this
    · rintro rfl
      rfl
  unfold net.SplitHostPort at hs
  simp only [strings.HasPrefix, e1, e2]
  cases hi : strings.lastIndexByteL hp.data ':' with
  | none => simp [hi] at hs
  | some i =>
    simp only [hi] at hs
    have hget := strings.lastIndexByteL_get _ _ _ hi
    cases hd : hp.data with
    | nil => simp [hd, strings.lastIndexByteL] at hi
    | cons c tl =>
      simp only [hd] at hs hget
      by_cases hc : c = '['
      · subst hc
        simp only [List.head?_cons, if_true] at hs
        cases he : strings.indexByteL ('[' :: tl) ']' with
        | none => simp [he] at hs
        | some e =>
          simp only [he] at hs
          split_ifs at hs with h1 h2 h3 h4 h5
          simp only [Except.ok.injEq, Prod.mk.injEq] at hs
          obtain ⟨hh, -⟩ := hs
          subst hh
          simp only [strings.indexByteL, Char.reduceEq, if_false, Option.map_eq_some'] at he
          obtain ⟨e', he', rfl⟩ := he
          rw [hempty]
          simp only [strings.hasPrefixL, Bool.and_eq_true, beq_iff_eq, Char.reduceEq, false_and,
            false_or]
          cases tl with
          | nil => simp [strings.indexByteL] at he'
          | cons d tl' =>
            simp only [List.take_succ_cons, List.drop_succ_cons, List.drop_zero]
            by_cases hd' : d = ']'
            · subst hd'
              simp only [strings.indexByteL, if_true, Option.some.injEq] at he'
              subst he'
              subst h2
              cases tl' with
              | nil => simp at hget
              | cons x tl'' =>
                simp at hget
                subst hget
                simp [strings.hasPrefixL]
            · simp only [strings.indexByteL, hd', if_false, Option.map_eq_some'] at he'
              obtain ⟨e'', -, rfl⟩ := he'
              simp [strings.hasPrefixL, hd']
      · simp only [List.head?_cons, Option.some.injEq, hc, if_false] at hs
        split_ifs at hs with h1 h2 h3 h4
        simp only [Except.ok.injEq, Prod.mk.injEq] at hs
        obtain ⟨hh, -⟩ := hs
        subst hh
        rw [hempty]
        rw [strings.indexByteL_isSome_iff] at h1
        simp only [strings.hasPrefixL, Bool.and_eq_true, beq_iff_eq, hc, false_and, or_false,
          and_true]
        cases i with
        | zero =>
          simp at hget
          simp [hget]
        | succ j =>
          simp only [List.take_succ_cons, List.mem_cons, not_or] at h1
          have : ¬ c = ':' := fun e => h1.1 e.symm
          simp [this]

theorem strconv.Atoi_range (s : String) (n : Int) (h : strconv.Atoi s = .ok n) :
    -(2 : Int) ^ 63 ≤ n ∧ n < (2 : Int) ^ 63 := by
  unfold strconv.Atoi at h
  split at h
  · cases h
  · rename_i c rest _
    simp only at h
    split at h
    · cases h
    · split at h
      · cases h
      · rename_i un _
        cases hneg : (c == '-') <;>
          simp only [hneg, strconv.IntSize, Bool.and_eq_true, Bool.not_eq_true',
            decide_eq_true_eq, Bool.not_false, Bool.not_true, Bool.false_and, Bool.true_and,
            Bool.false_eq_true, if_false, if_true] at h <;>
          split_ifs at h <;> cases h <;> omega

/-- What one round of the loop of `prepare` stores in a target. -/
theorem targetOf_ok (parse : String → Except Error url.URL) (A : Int) (u : String) (t : target)
    (h : targetOf parse A u = .ok t) :
    t.original = withScheme u ∧ parse (withScheme u) = .ok t.url ∧
    ((strings.Contains t.url.Host ":" = false ∧ t.hostname = t.url.Host ∧ t.port = A) ∨
      (strings.Contains t.url.Host ":" = true ∧
        ∃ portStr, net.SplitHostPort t.url.Host = .ok (t.hostname, portStr) ∧
          strconv.Atoi portStr = .ok t.port)) := by
  unfold targetOf at h
  cases hp : parse (withScheme u) with
  | error e => simp [hp] at h
  | ok p =>
    simp only [hp] at h
    by_cases hc : strings.Contains p.Host ":" = true
    · simp only [hc, if_true] at h
      cases hs : net.SplitHostPort p.Host with
      | error e => simp [hs] at h
      | ok hps =>
        obtain ⟨hn, ps⟩ := hps
        simp only [hs] at h
        cases ha : strconv.Atoi ps with
        | error e => simp [ha] at h
        | ok n =>
          simp only [ha, Except.ok.injEq] at h
          subst h
          exact ⟨rfl, rfl, Or.inr ⟨hc, ps, hs, ha⟩⟩
    · rw [if_neg hc] at h
      simp only [Except.ok.injEq] at h
      subst h
      exact ⟨rfl, rfl, Or.inl ⟨by simpa using hc, rfl, rfl⟩⟩

/-- Every target of a successful `prepare` is the target of one of the raw
strings. -/
theorem prepare_mem (parse : String → Except Error url.URL) (A : Int) (urls : List String)
    (ts : List target) (h : prepare parse A urls = (ts, none)) :
    ∀ t ∈ ts, ∃ u ∈ urls, targetOf parse A u = .ok t := by
  obtain ⟨ts', hts, hf⟩ := prepareLoop_ok parse A urls [] ts h
  rw [List.nil_append] at hts
  subst hts
  have hmem : ∀ t ∈ ts, ∃ u ∈ urls, targetOf parse A u = .ok t := by
    clear h
    induction hf with
    | nil => simp
    | cons hab _ ih =>
      intro t ht
      rcases List.mem_cons.1 ht with rfl | ht
      · exact ⟨_, List.mem_cons_self _ _, hab⟩
      · obtain ⟨u, hu, hut⟩ := ih t ht
        exact ⟨u, List.mem_cons_of_mem _ hu, hut⟩
  intro t ht
  exact hmem t ht

/-- C1 (the claim as stated fails): the raw string `":0"` is prepared without
an error into a target whose hostname is empty and whose port is zero. -/
theorem prepare_empty_hostname_zero_port :
    prepare url.Parse 4040 [":0"] =
      ([{ original := "http://:0",
          url := { Scheme := "http", Opaque := "", User := none, Host := ":0", Path := "",
                   RawPath := "", RawQuery := "", Fragment := "" },
          hostname := "", port := 0 }], none) ∧
    ¬ (∀ ts, prepare url.Parse 4040 [":0"] = (ts, none) →
        ∀ t ∈ ts, t.hostname ≠ "" ∧ 0 < t.port) := by
  refine ⟨by decide, fun h => ?_⟩
  have h1 : prepare url.Parse 4040 [":0"] =
      ([{ original := "http://:0",
          url := { Scheme := "http", Opaque := "", User := none, Host := ":0", Path := "",
                   RawPath := "", RawQuery := "", Fragment := "" },
          hostname := "", port := 0 }], none) := by decide
  have h0 := h _ h1 _ (List.mem_singleton_self _)
  exact absurd h0.2 (by decide)

/-- C1 (as amended): in every target of a successful `prepare` the hostname is
empty exactly when the host of the parsed URL is empty or begins with `:` or
with `[]:`, and the port is the default application port when that host has no
colon and otherwise the value of the port text of the host, an integer in the
range of `int` that may be zero or negative. -/
theorem prepare_target_invariant (parse : String → Except Error url.URL) (A : Int)
    (urls : List String) (ts : List target) (h : prepare parse A urls = (ts, none)) :
    ∀ t ∈ ts,
      (t.hostname = "" ↔
        (t.url.Host = "" ∨ strings.HasPrefix t.url.Host ":" = true ∨
          strings.HasPrefix t.url.Host "[]:" = true)) ∧
      ((strings.Contains t.url.Host ":" = false ∧ t.hostname = t.url.Host ∧ t.port = A) ∨
        (strings.Contains t.url.Host ":" = true ∧
          ∃ portStr, net.SplitHostPort t.url.Host = .ok (t.hostname, portStr) ∧
            strconv.Atoi portStr = .ok t.port ∧
            -(2 : Int) ^ 63 ≤ t.port ∧ t.port < (2 : Int) ^ 63)) := by
  intro t ht
  obtain ⟨u, -, hu⟩ := prepare_mem parse A urls ts h t ht
  obtain ⟨-, -, hcase⟩ := targetOf_ok parse A u t hu
  have e1 : (":" : String).data = [':'] := rfl
  have e2 : ("[]:" : String).data = ['[', ']', ':'] := rfl
  rcases hcase with ⟨hc, hh, hp⟩ | ⟨hc, ps, hs, ha⟩
  · refine ⟨?_, Or.inl ⟨hc, hh, hp⟩⟩
    have hno : ¬ ∃ a b, t.url.Host.data = a ++ (":" : String).data ++ b := by
      rw [← strings.Contains_iff, hc]
      simp
    have h1 : ¬ strings.HasPrefix t.url.Host ":" = true := by
      intro hpre
      obtain ⟨b, hb⟩ := (strings.hasPrefixL_iff _ _).1 hpre
      exact hno ⟨[], b, by simpa using hb⟩
    have h2 : ¬ strings.HasPrefix t.url.Host "[]:" = true := by
      intro hpre
      obtain ⟨b, hb⟩ := (strings.hasPrefixL_iff _ _).1 hpre
      exact hno ⟨['[', ']'], b, by rw [hb, e1, e2]; rfl⟩
    rw [hh]
    simp [h1, h2]
  · refine ⟨?_, Or.inr ⟨hc, ps, hs, ha, strconv.Atoi_range ps t.port ha⟩⟩
    rw [net.SplitHostPort_host_empty _ _ _ hs]
    have h0 : t.url.Host ≠ "" := by
      intro h0
      rw [h0] at hc
      exact absurd hc (by decide)
    simp [h0]

/-- Witness of `prepare_target_invariant` on two raw strings. -/
theorem prepare_target_invariant_witness :
    prepare url.Parse 4040 ["svc:8080", "localhost"] =
      ([{ original := "http://svc:8080",
          url := { Scheme := "http", Opaque := "", User := none, Host := "svc:8080", Path := "",
                   RawPath := "", RawQuery := "", Fragment := "" },
          hostname := "svc", port := 8080 },
        { original := "http://localhost",
          url := { Scheme := "http", Opaque := "", User := none, Host := "localhost", Path := "",
                   RawPath := "", RawQuery := "", Fragment := "" },
          hostname := "localhost", port := 4040 }], none) ∧
    ∀ t ∈ (prepare url.Parse 4040 ["svc:8080", "localhost"]).1,
      (t.hostname = "" ↔
        (t.url.Host = "" ∨ strings.HasPrefix t.url.Host ":" = true ∨
          strings.HasPrefix t.url.Host "[]:" = true)) ∧
      ((strings.Contains t.url.Host ":" = false ∧ t.hostname = t.url.Host ∧ t.port = 4040) ∨
        (strings.Contains t.url.Host ":" = true ∧
          ∃ portStr, net.SplitHostPort t.url.Host = .ok (t.hostname, portStr) ∧
            strconv.Atoi portStr = .ok t.port ∧
            -(2 : Int) ^ 63 ≤ t.port ∧ t.port < (2 : Int) ^ 63)) :=
  ⟨by decide, prepare_target_invariant url.Parse 4040 ["svc:8080", "localhost"] _ (by decide)⟩

/-- C2 (the code at the failing input): for the raw string `"localhost"` the
field `original` of the target is `"http://localhost"`, the string with the
scheme that `prepare` put in front, and not the raw string. -/
theorem prepare_original_localhost :
    (prepare url.Parse 4040 ["localhost"]).1.map target.original = ["http://localhost"] ∧
    (prepare url.Parse 4040 ["localhost"]).2 = none ∧
    (prepare url.Parse 4040 ["localhost"]).1.map target.original ≠ ["localhost"] := by
  decide

theorem prepare_singleton (parse : String → Except Error url.URL) (A : Int) (u : String) :
    prepare parse A [u] =
      match targetOf parse A u with
      | .error err => ([], some err)
      | .ok t => ([t], none) := by
  unfold prepare
  rw [prepareLoop_cons]
  cases targetOf parse A u <;> rfl

/-- C3: the string that `prepare` hands to the URL parser is the raw string
when it contains `//`, the raw string behind `https://` when it has no `//`
and ends with `:443`, and the raw string behind `http://` otherwise: the
result of `prepare` depends on the parser at that string only, an error of the
parser there is the error of `prepare`, and the URL of the target is what the
parser returns there.  With Go's parser `"localhost"` gets the scheme `http`
and `"example.com:443"` the scheme `https` and the port 443. -/
theorem prepare_parser_input :
    (∀ u : String,
      ((∃ a b, u.data = a ++ "//".data ++ b) → withScheme u = u) ∧
      ((¬ ∃ a b, u.data = a ++ "//".data ++ b) → (∃ a, u.data = a ++ ":443".data) →
        withScheme u = "https://" ++ u) ∧
      ((¬ ∃ a b, u.data = a ++ "//".data ++ b) → (¬ ∃ a, u.data = a ++ ":443".data) →
        withScheme u = "http://" ++ u) ∧
      (∀ (p1 p2 : String → Except Error url.URL) (A : Int),
        p1 (withScheme u) = p2 (withScheme u) → prepare p1 A [u] = prepare p2 A [u]) ∧
      (∀ (parse : String → Except Error url.URL) (A : Int) (e : Error),
        parse (withScheme u) = .error e → prepare parse A [u] = ([], some e)) ∧
      (∀ (parse : String → Except Error url.URL) (A : Int) (ts : List target),
        prepare parse A [u] = (ts, none) →
          ∃ t, ts = [t] ∧ t.original = withScheme u ∧ parse (withScheme u) = .ok t.url)) ∧
    (∀ A : Int, ∃ t, prepare url.Parse A ["localhost"] = ([t], none) ∧
      t.url.Scheme = "http" ∧ t.hostname = "localhost" ∧ t.port = A) ∧
    (∀ A : Int, ∃ t, prepare url.Parse A ["example.com:443"] = ([t], none) ∧
      t.url.Scheme = "https" ∧ t.hostname = "example.com" ∧ t.port = 443) := by
  refine ⟨fun u => ⟨?_, ?_, ?_, ?_, ?_, ?_⟩, ?_, ?_⟩
  · intro h
    rw [← strings.Contains_iff] at h
    simp [withScheme, h]
  · intro h1 h2
    rw [← strings.Contains_iff] at h1
    rw [← strings.HasSuffix_iff] at h2
    simp [withScheme, h1, h2]
  · intro h1 h2
    rw [← strings.Contains_iff] at h1
    rw [← strings.HasSuffix_iff] at h2
    simp [withScheme, h1, h2]
  · intro p1 p2 A h
    rw [prepare_singleton, prepare_singleton]
    unfold targetOf
    rw [h]
  · intro parse A e h
    rw [prepare_singleton]
    unfold targetOf
    rw [h]
  · intro parse A ts h
    rw [prepare_singleton] at h
    cases ht : targetOf parse A u with
    | error e => simp [ht] at h
    | ok t =>
      simp only [ht, Prod.mk.injEq, and_true] at h
      obtain ⟨h1, h2, -⟩ := targetOf_ok parse A u t ht
      exact ⟨t, h.symm, h1, h2⟩
  · intro A
    exact ⟨_, rfl, rfl, rfl, rfl⟩
  · intro A
    exact ⟨_, rfl, rfl, rfl, rfl⟩

/-- C4: when the host of the parsed URL has no colon, `prepare` yields that
host as the hostname and the default application port as the port; when it has
a colon, hostname and port are the two parts of `net.SplitHostPort` of the
host, the port text being read by `strconv.Atoi`.  The raw string
`"http://svc:8080/path"` gives hostname `svc`, port 8080 and path `/path`. -/
theorem prepare_hostname_port (parse : String → Except Error url.URL) (A : Int) (u : String)
    (p : url.URL) (hp : parse (withScheme u) = .ok p) :
    (strings.Contains p.Host ":" = false →
      prepare parse A [u] =
        ([{ original := withScheme u, url := p, hostname := p.Host, port := A }], none)) ∧
    (strings.Contains p.Host ":" = true →
      ∀ (hostname portStr : String) (port : Int),
        net.SplitHostPort p.Host = .ok (hostname, portStr) → strconv.Atoi portStr = .ok port →
        prepare parse A [u] =
          ([{ original := withScheme u, url := p, hostname := hostname, port := port }], none)) ∧
    prepare url.Parse A ["http://svc:8080/path"] =
      ([{ original := "http://svc:8080/path",
          url := { Scheme := "http", Opaque := "", User := none, Host := "svc:8080",
                   Path := "/path", RawPath := "", RawQuery := "", Fragment := "" },
          hostname := "svc", port := 8080 }], none) := by
  refine ⟨?_, ?_, rfl⟩
  · intro hc
    rw [prepare_singleton]
    unfold targetOf
    rw [hp]
    simp [hc]
  · intro hc hostname portStr port hs ha
    rw [prepare_singleton]
    unfold targetOf
    rw [hp]
    simp [hc, hs, ha]

/-- Witness of `prepare_hostname_port`: Go's parser on `"svc:8080"`. -/
theorem prepare_hostname_port_witness :
    url.Parse (withScheme "svc:8080") =
      .ok { Scheme := "http", Opaque := "", User := none, Host := "svc:8080", Path := "",
            RawPath := "", RawQuery := "", Fragment := "" } ∧
    net.SplitHostPort "svc:8080" = .ok ("svc", "8080") ∧ strconv.Atoi "8080" = .ok 8080 ∧
    prepare url.Parse 4040 ["svc:8080"] =
      ([{ original := "http://svc:8080",
          url := { Scheme := "http", Opaque := "", User := none, Host := "svc:8080", Path := "",
                   RawPath := "", RawQuery := "", Fragment := "" },
          hostname := "svc", port := 8080 }], none) :=
  ⟨rfl, rfl, rfl,
    (prepare_hostname_port url.Parse 4040 "svc:8080" _ rfl).2.1 (by decide) "svc" "8080" 8080
      rfl rfl⟩

/-- C5: when the URL parser, `net.SplitHostPort` or `strconv.Atoi` fails for
one of the raw strings, `prepare` returns an error and no target, and
`NewResolver` returns that error and no resolver and leaves the state as it
was: no goroutine is started, nothing is added to the trace. -/
theorem prepare_all_or_nothing (parse : String → Except Error url.URL) (A : Int)
    (urls : List String)
    (h : ∃ u ∈ urls,
      (∃ e, parse (withScheme u) = .error e) ∨
      (∃ p, parse (withScheme u) = .ok p ∧ strings.Contains p.Host ":" = true ∧
        ((∃ e, net.SplitHostPort p.Host = .error e) ∨
          (∃ hostname portStr e, net.SplitHostPort p.Host = .ok (hostname, portStr) ∧
            strconv.Atoi portStr = .error e)))) :
    ∃ e, prepare parse A urls = ([], some e) ∧
      ∀ (ω : Type) (lookup : LookupIP ω) (setters : List (setter ω)) (s : State ω),
        NewResolver parse A urls lookup setters s = ((none, some e), s) := by
  have h' : ∃ u ∈ urls, ∃ e, targetOf parse A u = .error e := by
    obtain ⟨u, hu, hcase⟩ := h
    refine ⟨u, hu, ?_⟩
    unfold targetOf
    rcases hcase with ⟨e, he⟩ | ⟨p, hp, hc, ⟨e, he⟩ | ⟨hn, ps, e, hs, ha⟩⟩
    · exact ⟨e, by rw [he]⟩
    · exact ⟨e, by rw [hp]; simp [hc, he]⟩
    · exact ⟨e, by rw [hp]; simp [hc, hs, ha]⟩
  obtain ⟨e, he⟩ := prepareLoop_error parse A urls [] h'
  refine ⟨e, he, ?_⟩
  intro ω lookup setters s
  unfold NewResolver
  have he' : prepare parse A urls = ([], some e) := he
  rw [he']

/-- Witness of `prepare_all_or_nothing`: the port text of the second raw
string is out of the range of `int`. -/
theorem prepare_all_or_nothing_witness :
    ∃ e, prepare url.Parse 4040 ["localhost", "svc:99999999999999999999"] = ([], some e) ∧
      ∀ (ω : Type) (lookup : LookupIP ω) (setters : List (setter ω)) (s : State ω),
        NewResolver url.Parse 4040 ["localhost", "svc:99999999999999999999"] lookup setters s =
          ((none, some e), s) :=
  prepare_all_or_nothing url.Parse 4040 ["localhost", "svc:99999999999999999999"]
    ⟨"svc:99999999999999999999", by decide,
      Or.inr ⟨{ Scheme := "http", Opaque := "", User := none,
                Host := "svc:99999999999999999999", Path := "", RawPath := "", RawQuery := "",
                Fragment := "" }, rfl, by decide,
        Or.inr ⟨"svc", "99999999999999999999", "value out of range", rfl, rfl⟩⟩⟩

/-! ## `makeURLs` -/

theorem makeURLsLoop_eq (t : target) (ips : List String) (cell : url.URL)
    (acc : List url.URL) :
    makeURLsLoop t ips cell acc =
      (cell, acc ++ ips.map (fun ip =>
        { cell with Host := net.JoinHostPort ip (strconv.Itoa t.port) })) := by
  induction ips generalizing acc with
  | nil => simp [makeURLsLoop]
  | cons ip ips ih => simp [makeURLsLoop, ih]

theorem makeURLs_eq_map (t : target) (ips : List String) :
    makeURLs t ips =
      ips.map (fun ip => { t.url with Host := net.JoinHostPort ip (strconv.Itoa t.port) }) := by
  unfold makeURLs
  rw [makeURLsLoop_eq]
  simp

/-! ## `resolveOne` -/

theorem endpointsLoop_eq (addrs : List net.IP) (acc : List String) :
    endpointsLoop addrs acc =
      acc ++ (addrs.filter (fun a => a.To4.isSome)).map net.IP.String := by
  induction addrs generalizing acc with
  | nil => simp [endpointsLoop]
  | cons a addrs ih =>
    cases h : a.To4 with
    | none => simp [endpointsLoop, h, ih]
    | some p => simp [endpointsLoop, h, ih]

/-- C7: for a target whose hostname is an IP literal, `resolveOne` returns the
string form of that one address (or nothing when it has no 4 byte form) and
leaves the state as it was: the lookup function is not called, no warning is
written, the failed hostnames are the same; the result is the same for every
lookup function. -/
theorem resolveOne_ip_literal {ω : Type} (r : staticResolver ω) (t : target) (s : State ω)
    (addr : net.IP) (h : net.ParseIP t.hostname = some addr) :
    r.resolveOne t s = (endpointsLoop [addr] [], s) ∧
    (r.resolveOne t s).1 = (if addr.To4 = none then [] else [addr.String]) ∧
    (r.resolveOne t s).2.trace = s.trace ∧
    (r.resolveOne t s).2.failedResolutions = s.failedResolutions ∧
    ∀ lookup : LookupIP ω,
      ({ r with lookup := lookup } : staticResolver ω).resolveOne t s = r.resolveOne t s := by
  have h1 : ∀ r' : staticResolver ω, r'.resolveOne t s = (endpointsLoop [addr] [], s) := by
    intro r'
    unfold staticResolver.resolveOne
    rw [h]
  refine ⟨h1 r, ?_, ?_, ?_, ?_⟩
  · rw [h1 r]
    by_cases h4 : addr.To4 = none <;> simp [endpointsLoop, h4]
  · rw [h1 r]
  · rw [h1 r]
  · intro lookup
    rw [h1 r, h1]

/-- Witness of `resolveOne_ip_literal`: the hostname `10.0.0.1`. -/
theorem resolveOne_ip_literal_witness :
    net.ParseIP "10.0.0.1" = some [0, 0, 0, 0, 0, 0, 0, 0, 0, 0, 0xff, 0xff, 10, 0, 0, 1] ∧
    (({ setters := [], targets := [], lookup := fun _ n => (([], some "no such host"), n + 1) } :
        staticResolver Nat).resolveOne
      { original := "http://10.0.0.1",
        url := { Scheme := "http", Opaque := "", User := none, Host := "10.0.0.1", Path := "",
                 RawPath := "", RawQuery := "", Fragment := "" },
        hostname := "10.0.0.1", port := 4040 }
      { env := 0, trace := [], failedResolutions := ∅, quitClosed := false,
        tickPending := false, loop := none }).1 = ["10.0.0.1"] :=
  ⟨by decide,
    ((resolveOne_ip_literal _ _ _ [0, 0, 0, 0, 0, 0, 0, 0, 0, 0, 0xff, 0xff, 10, 0, 0, 1]
      (by decide)).2.1).trans (by decide)⟩

/-- C8: for a hostname that is no IP literal and whose lookup succeeds,
`resolveOne` returns the string forms of the looked up addresses that have a
4 byte form, in their order, and nothing for the other addresses; when no
address has a 4 byte form the result is empty. -/
theorem resolveOne_ipv4_only {ω : Type} (r : staticResolver ω) (t : target) (s : State ω)
    (addrs : List net.IP) (env : ω) (hip : net.ParseIP t.hostname = none)
    (hl : r.lookup t.hostname s.env = ((addrs, none), env)) :
    (r.resolveOne t s).1 = (addrs.filter (fun a => a.To4.isSome)).map net.IP.String ∧
    ((∀ a ∈ addrs, a.To4 = none) → (r.resolveOne t s).1 = []) := by
  have h1 : (r.resolveOne t s).1 = (addrs.filter (fun a => a.To4.isSome)).map net.IP.String := by
    unfold staticResolver.resolveOne
    rw [hip]
    simp only [hl]
    rw [endpointsLoop_eq]
    simp
  refine ⟨h1, fun hall => ?_⟩
  rw [h1]
  have : addrs.filter (fun a => a.To4.isSome) = [] := by
    rw [List.filter_eq_nil_iff]
    intro a ha
    simp [hall a ha]
  rw [this]
  rfl

/-- Witness of `resolveOne_ipv4_only`: a lookup that returns an IPv4 address,
the IPv6 address `::1` and another IPv4 address. -/
theorem resolveOne_ipv4_only_witness :
    (({ setters := [], targets := [],
        lookup := fun _ n =>
          (([[10, 0, 0, 1], [0, 0, 0, 0, 0, 0, 0, 0, 0, 0, 0, 0, 0, 0, 0, 1],
             [0, 0, 0, 0, 0, 0, 0, 0, 0, 0, 0xff, 0xff, 1, 2, 3, 4]], none), n + 1) } :
        staticResolver Nat).resolveOne
      { original := "http://svc",
        url := { Scheme := "http", Opaque := "", User := none, Host := "svc", Path := "",
                 RawPath := "", RawQuery := "", Fragment := "" },
        hostname := "svc", port := 4040 }
      { env := 0, trace := [], failedResolutions := ∅, quitClosed := false,
        tickPending := false, loop := none }).1 = ["10.0.0.1", "1.2.3.4"] :=
  ((resolveOne_ipv4_only _ _ _ _ 1 (by decide) rfl).1).trans (by decide)

theorem warnings_append (a b : List Event) : warnings (a ++ b) = warnings a + warnings b := by
  simp [warnings, List.countP_append]

/-- One call of `resolveOne` for a hostname that is no IP literal: a warning is
written exactly when the lookup fails and the hostname is not yet among the
failed ones, and afterwards the hostname is among them exactly when the lookup
failed. -/
theorem resolveOne_step {ω : Type} (r : staticResolver ω) (t : target) (s : State ω)
    (hip : net.ParseIP t.hostname = none) :
    warnings (r.resolveOne t s).2.trace =
      warnings s.trace +
        (if (r.lookup t.hostname s.env).1.2.isSome = true ∧ t.hostname ∉ s.failedResolutions
          then 1 else 0) ∧
    (t.hostname ∈ (r.resolveOne t s).2.failedResolutions ↔
      (r.lookup t.hostname s.env).1.2.isSome = true) := by
  unfold staticResolver.resolveOne
  rw [hip]
  simp only
  cases hl : (r.lookup t.hostname s.env).1.2 with
  | none => simp [warnings_append, warnings]
  | some err =>
    by_cases hm : t.hostname ∈ s.failedResolutions
    · simp [hm, warnings_append, warnings]
    · simp [hm, warnings_append, warnings]

theorem resolveSeq_warnings {ω : Type} (r : staticResolver ω) (t : target)
    (hip : net.ParseIP t.hostname = none) (envs : List ω) (s : State ω) (prev : Bool)
    (hprev : t.hostname ∈ s.failedResolutions ↔ prev = true) :
    warnings (resolveSeq r t envs s).trace =
      warnings s.trace +
        failureRuns prev (envs.map (fun e => (r.lookup t.hostname e).1.2.isSome)) := by
  induction envs generalizing s prev with
  | nil => simp [resolveSeq, failureRuns]
  | cons e envs ih =>
    obtain ⟨h1, h2⟩ := resolveOne_step r t { s with env := e } hip
    simp only [resolveSeq, List.map_cons, failureRuns]
    rw [ih _ ((r.lookup t.hostname e).1.2.isSome) h2, h1]
    simp only
    by_cases hf : (r.lookup t.hostname e).1.2.isSome = true
    · cases prev
      · simp_all
        omega
      · simp_all
    · cases prev <;> simp_all

theorem failureRuns_replicate (prev : Bool) (n : Nat) :
    failureRuns prev (List.replicate n true) = if n = 0 ∨ prev = true then 0 else 1 := by
  induction n generalizing prev with
  | zero => simp [failureRuns]
  | succ n ih =>
    simp only [List.replicate_succ, failureRuns, ih]
    cases prev <;> simp

theorem map_failed_eq_replicate {ω : Type} (f : ω → Bool) (envs : List ω)
    (h : ∀ e ∈ envs, f e = true) : envs.map f = List.replicate envs.length true := by
  induction envs with
  | nil => rfl
  | cons e envs ih =>
    simp only [List.map_cons, List.length_cons, List.replicate_succ]
    rw [h e (List.mem_cons_self _ _), ih (fun x hx => h x (List.mem_cons_of_mem _ hx))]

theorem failureRuns_append (prev : Bool) (a : List Bool) (x : Bool) (b : List Bool) :
    failureRuns prev (a ++ x :: b) =
      failureRuns prev (a ++ [x]) + failureRuns x b := by
  induction a generalizing prev with
  | nil => simp [failureRuns]
  | cons y a ih =>
    rw [List.cons_append, List.cons_append]
    simp only [failureRuns]
    rw [ih]
    omega

theorem failureRuns_replicate_false (prev : Bool) (n : Nat) :
    failureRuns prev (List.replicate n true ++ [false]) =
      if n = 0 ∨ prev = true then 0 else 1 := by
  induction n generalizing prev with
  | zero => simp [failureRuns]
  | succ n ih =>
    rw [List.replicate_succ, List.cons_append]
    simp only [failureRuns]
    rw [ih]
    cases prev <;> simp

/-- C9: for a hostname that is no IP literal and an empty set of failed
hostnames, the warnings written by successive calls of `resolveOne` are as many
as the maximal runs of consecutive failing lookups: one warning for any number
of consecutive failures, and one more for the failures that follow a
success. -/
theorem resolveOne_warns_once_per_failure_run {ω : Type} (r : staticResolver ω) (t : target)
    (s : State ω) (hip : net.ParseIP t.hostname = none) (hempty : s.failedResolutions = ∅) :
    (∀ envs : List ω,
      warnings (resolveSeq r t envs s).trace =
        warnings s.trace +
          failureRuns false (envs.map (fun e => (r.lookup t.hostname e).1.2.isSome))) ∧
    (∀ envs : List ω, envs ≠ [] →
      (∀ e ∈ envs, (r.lookup t.hostname e).1.2.isSome = true) →
      warnings (resolveSeq r t envs s).trace = warnings s.trace + 1) ∧
    (∀ (envs₁ envs₂ : List ω) (e : ω), envs₁ ≠ [] → envs₂ ≠ [] →
      (∀ x ∈ envs₁, (r.lookup t.hostname x).1.2.isSome = true) →
      (r.lookup t.hostname e).1.2.isSome = false →
      (∀ x ∈ envs₂, (r.lookup t.hostname x).1.2.isSome = true) →
      warnings (resolveSeq r t (envs₁ ++ e :: envs₂) s).trace = warnings s.trace + 2) := by
  have hmain : ∀ envs : List ω,
      warnings (resolveSeq r t envs s).trace =
        warnings s.trace +
          failureRuns false (envs.map (fun e => (r.lookup t.hostname e).1.2.isSome)) := by
    intro envs
    apply resolveSeq_warnings r t hip envs s false
    simp [hempty]
  refine ⟨hmain, ?_, ?_⟩
  · intro envs hne hall
    rw [hmain, map_failed_eq_replicate _ envs hall, failureRuns_replicate]
    have : envs.length ≠ 0 := fun h => hne (List.length_eq_zero.1 h)
    simp [this]
  · intro envs₁ envs₂ e h1 h2 hall1 he hall2
    rw [hmain, List.map_append, List.map_cons, failureRuns_append, he,
      map_failed_eq_replicate _ envs₁ hall1, map_failed_eq_replicate _ envs₂ hall2,
      failureRuns_replicate]
    have e1 : envs₁.length ≠ 0 := fun h => h1 (List.length_eq_zero.1 h)
    have e2 : envs₂.length ≠ 0 := fun h => h2 (List.length_eq_zero.1 h)
    have h3 : failureRuns false (List.replicate envs₁.length true ++ [false]) = 1 := by
      rw [failureRuns_replicate_false]
      simp [e1]
    rw [h3]
    simp [e2]

/-- Witness of `resolveOne_warns_once_per_failure_run`: the lookup fails in the
worlds 1, 2 and 3, succeeds in the world 0 and fails again in the world 5; two
warnings are written. -/
theorem resolveOne_warns_once_per_failure_run_witness :
    warnings (resolveSeq
      ({ setters := [], targets := [],
         lookup := fun _ n =>
          (if n = 0 then ([[10, 0, 0, 1]], none) else ([], some "no such host"), n) } :
        staticResolver Nat)
      { original := "http://svc",
        url := { Scheme := "http", Opaque := "", User := none, Host := "svc", Path := "",
                 RawPath := "", RawQuery := "", Fragment := "" },
        hostname := "svc", port := 4040 }
      [1, 2, 3, 0, 5]
      { env := 0, trace := [], failedResolutions := ∅, quitClosed := false,
        tickPending := false, loop := none }).trace = 2 :=
  ((resolveOne_warns_once_per_failure_run _ _ _ (by decide) rfl).1 [1, 2, 3, 0, 5]).trans
    (by decide)

/-! ## `resolve` -/

theorem setEvents_append (a b : List Event) : setEvents (a ++ b) = setEvents a ++ setEvents b := by
  simp [setEvents]

theorem setEvents_map_set (hostname : String) (urls : List url.URL) (f : Nat → Nat)
    (l : List Nat) :
    setEvents (l.map (fun j => Event.set (f j) hostname urls)) =
      l.map (fun j => Event.set (f j) hostname urls) := by
  induction l with
  | nil => rfl
  | cons x l ih =>
    simp only [List.map_cons, setEvents, List.filter_cons_of_pos, List.cons.injEq, true_and]
    exact ih

theorem callSetters_trace {ω : Type} (hostname : String) (urls : List url.URL)
    (fs : List (setter ω)) (i : Nat) (s : State ω) :
    (callSetters hostname urls fs i s).trace =
      s.trace ++ (List.range fs.length).map (fun j => Event.set (i + j) hostname urls) := by
  induction fs generalizing i s with
  | nil => simp [callSetters]
  | cons f fs ih =>
    simp only [callSetters, ih, List.length_cons, List.range_succ_eq_map, List.map_cons,
      List.map_map, List.append_assoc, List.singleton_append, Nat.add_zero]
    congr 2
    apply List.map_congr_left
    intro j _
    simp only [Function.comp_apply, Nat.succ_eq_add_one]
    congr 1
    omega

theorem resolveOne_setEvents {ω : Type} (r : staticResolver ω) (t : target) (s : State ω) :
    setEvents (r.resolveOne t s).2.trace = setEvents s.trace := by
  unfold staticResolver.resolveOne
  cases net.ParseIP t.hostname with
  | some addr => rfl
  | none =>
    simp only
    cases (r.lookup t.hostname s.env).1.2 with
    | none => simp [setEvents_append, setEvents]
    | some err =>
      by_cases hm : t.hostname ∈ s.failedResolutions
      · simp [hm, setEvents_append, setEvents]
      · simp [hm, setEvents_append, setEvents]

/-- The setter calls of the pass over a list of targets: for the target at
position `i`, one call per setter with the endpoints resolved in the state
that the pass over the targets before it has reached. -/
theorem resolveLoop_setEvents {ω : Type} (r : staticResolver ω) (ts : List target)
    (s : State ω) :
    setEvents (resolveLoop r ts s).trace =
      setEvents s.trace ++
        (List.range ts.length).flatMap (fun i =>
          match ts.get? i with
          | none => []
          | some t =>
            (List.range r.setters.length).map (fun j =>
              Event.set j t.hostname
                (makeURLs t (r.resolveOne t (resolveLoop r (ts.take i) s)).1))) := by
  induction ts generalizing s with
  | nil => simp [resolveLoop]
  | cons t ts ih =>
    simp only [resolveLoop, List.length_cons, List.range_succ_eq_map, List.flatMap_cons,
      List.get?_cons_zero, List.take_zero, List.flatMap_map]
    rw [ih, callSetters_trace, setEvents_append, resolveOne_setEvents]
    have h0 := setEvents_map_set t.hostname (makeURLs t (r.resolveOne t s).1) (fun j => 0 + j)
      (List.range r.setters.length)
    rw [h0]
    simp only [Nat.zero_add, List.append_assoc]
    rfl

theorem resolveLoop_setEvents_length {ω : Type} (r : staticResolver ω) (ts : List target)
    (s : State ω) :
    (setEvents (resolveLoop r ts s).trace).length =
      (setEvents s.trace).length + ts.length * r.setters.length := by
  induction ts generalizing s with
  | nil => simp [resolveLoop]
  | cons t ts ih =>
    simp only [resolveLoop]
    rw [ih, callSetters_trace, setEvents_append, resolveOne_setEvents]
    have h0 := setEvents_map_set t.hostname (makeURLs t (r.resolveOne t s).1) (fun j => 0 + j)
      (List.range r.setters.length)
    rw [h0]
    simp only [List.length_append, List.length_map, List.length_range, List.length_cons]
    rw [Nat.add_mul]
    omega

/-! ## `resolveOne`: the failed hostnames and the endpoints -/

/-- The endpoints of `resolveOne` as a function of the target and of what the
lookup returns for its hostname. -/
theorem resolveOne_endpoints {ω : Type} (r : staticResolver ω) (t : target) (s : State ω) :
    (r.resolveOne t s).1 =
      match net.ParseIP t.hostname with
      | some addr => endpointsLoop [addr] []
      | none =>
        match (r.lookup t.hostname s.env).1.2 with
        | some _ => []
        | none => endpointsLoop (r.lookup t.hostname s.env).1.1 [] := by
  unfold staticResolver.resolveOne
  cases net.ParseIP t.hostname with
  | some addr => rfl
  | none =>
    simp only
    cases (r.lookup t.hostname s.env).1.2 with
    | none => rfl
    | some err =>
      by_cases hm : t.hostname ∈ s.failedResolutions
      · simp [hm]
      · simp [hm]

/-- The failed hostnames after `resolveOne` for a hostname that is no IP
literal. -/
theorem resolveOne_failedResolutions {ω : Type} (r : staticResolver ω) (t : target)
    (s : State ω) (hip : net.ParseIP t.hostname = none) :
    (r.resolveOne t s).2.failedResolutions =
      match (r.lookup t.hostname s.env).1.2 with
      | some _ => insert t.hostname s.failedResolutions
      | none => s.failedResolutions.erase t.hostname := by
  unfold staticResolver.resolveOne
  rw [hip]
  simp only
  cases (r.lookup t.hostname s.env).1.2 with
  | none => rfl
  | some err =>
    by_cases hm : t.hostname ∈ s.failedResolutions
    · simp [hm]
    · simp [hm]

/-- C13: the endpoints that `resolveOne` returns for a target depend only on
the target and on what the lookup returns for its hostname: two calls, by any
two resolvers in any two states (whatever their failed hostnames, traces and
worlds), return the same endpoints when the lookup returns the same for the
hostname of the target. -/
theorem resolveOne_endpoints_independent {ω : Type} (r₁ r₂ : staticResolver ω) (t : target)
    (s₁ s₂ : State ω)
    (h : (r₁.lookup t.hostname s₁.env).1 = (r₂.lookup t.hostname s₂.env).1) :
    (r₁.resolveOne t s₁).1 = (r₂.resolveOne t s₂).1 := by
  rw [resolveOne_endpoints, resolveOne_endpoints, h]

/-- Witness of `resolveOne_endpoints_independent`: the same successful lookup,
once with no failed hostname and once after failures of this and of another
hostname. -/
theorem resolveOne_endpoints_independent_witness :
    (({ setters := [], targets := [], lookup := fun _ n => (([[10, 0, 0, 1]], none), n + 1) } :
        staticResolver Nat).resolveOne
      ⟨"http://svc", ⟨"http", "", none, "svc", "", "", "", ""⟩, "svc", 4040⟩
      { env := 0, trace := [], failedResolutions := ∅, quitClosed := false,
        tickPending := false, loop := none }).1 =
    (({ setters := [], targets := [], lookup := fun _ n => (([[10, 0, 0, 1]], none), n + 1) } :
        staticResolver Nat).resolveOne
      ⟨"http://svc", ⟨"http", "", none, "svc", "", "", "", ""⟩, "svc", 4040⟩
      { env := 7, trace := [Event.lookup "other", Event.warn "Cannot resolve 'other': boom"],
        failedResolutions := {"other", "svc"}, quitClosed := false,
        tickPending := false, loop := none }).1 :=
  resolveOne_endpoints_independent _ _ _ _ _ rfl

/-- C16: for a hostname `h` that is no IP literal and failed hostnames `F`,
after `resolveOne` the failed hostnames are `F` with `h` inserted when the
lookup failed and `F` with `h` removed when it succeeded; whether any other
hostname is among them does not change. -/
theorem resolveOne_failed_set {ω : Type} (r : staticResolver ω) (t : target) (s : State ω)
    (hip : net.ParseIP t.hostname = none) :
    ((r.lookup t.hostname s.env).1.2 ≠ none →
      (r.resolveOne t s).2.failedResolutions = insert t.hostname s.failedResolutions) ∧
    ((r.lookup t.hostname s.env).1.2 = none →
      (r.resolveOne t s).2.failedResolutions = s.failedResolutions.erase t.hostname) ∧
    (∀ h : String, h ≠ t.hostname →
      (h ∈ (r.resolveOne t s).2.failedResolutions ↔ h ∈ s.failedResolutions)) := by
  have hf := resolveOne_failedResolutions r t s hip
  refine ⟨?_, ?_, ?_⟩
  · intro hne
    cases hl : (r.lookup t.hostname s.env).1.2 with
    | none => exact absurd hl hne
    | some err => rw [hf, hl]
  · intro hl
    rw [hf, hl]
  · intro h hne
    rw [hf]
    cases (r.lookup t.hostname s.env).1.2 with
    | none => simp [hne]
    | some err => simp [hne]

/-- Witness of `resolveOne_failed_set`: a failing lookup for `svc` next to the
failed hostname `other`. -/
theorem resolveOne_failed_set_witness :
    (({ setters := [], targets := [],
        lookup := fun _ n => (([], some "no such host"), n + 1) } :
        staticResolver Nat).resolveOne
      ⟨"http://svc", ⟨"http", "", none, "svc", "", "", "", ""⟩, "svc", 4040⟩
      { env := 0, trace := [], failedResolutions := {"other"}, quitClosed := false,
        tickPending := false, loop := none }).2.failedResolutions = {"svc", "other"} :=
  ((resolveOne_failed_set _ _ _ (by decide)).1 (by decide)).trans (by decide)

/-- C17: for a hostname that is no IP literal and a lookup that returns an
error, `resolveOne` returns no endpoint, whatever addresses the lookup returns
next to the error and whether or not the hostname is among the failed ones. -/
theorem resolveOne_error_no_endpoints {ω : Type} (r : staticResolver ω) (t : target)
    (s : State ω) (err : Error) (hip : net.ParseIP t.hostname = none)
    (hl : (r.lookup t.hostname s.env).1.2 = some err) :
    (r.resolveOne t s).1 = [] := by
  rw [resolveOne_endpoints, hip]
  simp only [hl]

/-- Witness of `resolveOne_error_no_endpoints`: the lookup returns an address
next to its error and the hostname has failed before. -/
theorem resolveOne_error_no_endpoints_witness :
    (({ setters := [], targets := [],
        lookup := fun _ n => (([[10, 0, 0, 1]], some "timeout"), n + 1) } :
        staticResolver Nat).resolveOne
      ⟨"http://svc", ⟨"http", "", none, "svc", "", "", "", ""⟩, "svc", 4040⟩
      { env := 0, trace := [], failedResolutions := {"svc"}, quitClosed := false,
        tickPending := false, loop := none }).1 = [] :=
  resolveOne_error_no_endpoints _ _ _ "timeout" (by decide) rfl

/-- C20: for a target whose hostname is an IP literal without a 4 byte form,
`resolveOne` returns no endpoint in every state and for every lookup function,
`makeURLs` makes no URL of it, and a pass over the target calls every setter
with no URL. -/
theorem resolveOne_ipv6_literal {ω : Type} (r : staticResolver ω) (t : target) (s : State ω)
    (addr : net.IP) (hip : net.ParseIP t.hostname = some addr) (h4 : addr.To4 = none) :
    (r.resolveOne t s).1 = [] ∧
    makeURLs t (r.resolveOne t s).1 = [] ∧
    setEvents (resolveLoop r [t] s).trace =
      setEvents s.trace ++
        (List.range r.setters.length).map (fun j => Event.set j t.hostname []) := by
  have h1 : (r.resolveOne t s).1 = [] := by
    rw [resolveOne_endpoints, hip]
    simp [endpointsLoop, h4]
  refine ⟨h1, by rw [h1]; rfl, ?_⟩
  rw [resolveLoop_setEvents]
  simp [List.range_succ, resolveLoop, h1, makeURLs, makeURLsLoop]

/-- Witness of `resolveOne_ipv6_literal`: the hostname `::1`, with a lookup
function that would return an IPv4 address. -/
theorem resolveOne_ipv6_literal_witness :
    net.ParseIP "::1" = some [0, 0, 0, 0, 0, 0, 0, 0, 0, 0, 0, 0, 0, 0, 0, 1] ∧
    (({ setters := [], targets := [], lookup := fun _ n => (([[10, 0, 0, 1]], none), n + 1) } :
        staticResolver Nat).resolveOne
      ⟨"http://[::1]:80", ⟨"http", "", none, "[::1]:80", "", "", "", ""⟩, "::1", 80⟩
      { env := 0, trace := [], failedResolutions := ∅, quitClosed := false,
        tickPending := false, loop := none }).1 = [] :=
  ⟨by decide,
    (resolveOne_ipv6_literal _ _ _ [0, 0, 0, 0, 0, 0, 0, 0, 0, 0, 0, 0, 0, 0, 0, 1]
      (by decide) (by decide)).1⟩

/-! ## `prepare`: one target per raw string -/

/-- C18: a successful `prepare` returns as many targets as there are raw
strings, and the target at each position is the one that `prepare` returns for
the raw string at that position alone, whatever the other strings are; for no
raw string it succeeds with no target. -/
theorem prepare_pointwise (parse : String → Except Error url.URL) (A : Int)
    (urls : List String) (ts : List target) (h : prepare parse A urls = (ts, none)) :
    ts.length = urls.length ∧
    List.Forall₂ (fun u t => prepare parse A [u] = ([t], none)) urls ts ∧
    (∀ (i : Nat) (u : String), urls.get? i = some u →
      ∃ t, ts.get? i = some t ∧ prepare parse A [u] = ([t], none)) ∧
    prepare parse A [] = ([], none) := by
  obtain ⟨ts', hts, hf⟩ := prepareLoop_ok parse A urls [] ts h
  rw [List.nil_append] at hts
  subst hts
  have hf' : List.Forall₂ (fun u t => prepare parse A [u] = ([t], none)) urls ts := by
    refine hf.imp ?_
    intro u t hut
    rw [prepare_singleton, hut]
  refine ⟨hf.length_eq.symm, hf', ?_, rfl⟩
  clear h hf
  induction hf' with
  | nil => simp
  | cons hab _ ih =>
    intro i u hi
    cases i with
    | zero =>
      simp only [List.get?_cons_zero, Option.some.injEq] at hi
      subst hi
      exact ⟨_, rfl, hab⟩
    | succ i => exact ih i u (by simpa using hi)

/-- Witness of `prepare_pointwise`: the same raw string twice gives two
targets. -/
theorem prepare_pointwise_witness :
    (prepare url.Parse 4040 ["svc:80", "localhost", "svc:80"]).1.length = 3 ∧
    List.Forall₂ (fun u t => prepare url.Parse 4040 [u] = ([t], none))
      ["svc:80", "localhost", "svc:80"]
      (prepare url.Parse 4040 ["svc:80", "localhost", "svc:80"]).1 :=
  ⟨(prepare_pointwise url.Parse 4040 ["svc:80", "localhost", "svc:80"] _ (by decide)).1,
    (prepare_pointwise url.Parse 4040 ["svc:80", "localhost", "svc:80"] _ (by decide)).2.1⟩

/-! ## `fastStartTicker` -/

theorem wrapInt64_of_range (x : Int) (h0 : -(2 : Int) ^ 63 ≤ x) (h1 : x < (2 : Int) ^ 63) :
    wrapInt64 x = x := by
  unfold wrapInt64
  omega

theorem sleepInterval_zero (D : Int) : sleepInterval D 0 = time.Second := by
  simp [sleepInterval, fastStartTickerAfter, fastStartTicker]

theorem sleepInterval_succ (D : Int) (n : Nat) :
    sleepInterval D (n + 1) =
      if wrapInt64 (sleepInterval D n * 2) > D then D else wrapInt64 (sleepInterval D n * 2) := by
  simp [sleepInterval, fastStartTickerAfter, fastStartTickerRound]

theorem two_pow_second_pos (i : Nat) : 0 < (2 : Int) ^ i * time.Second := by
  have : (0 : Int) < 2 ^ i := by positivity
  unfold time.Second
  omega

/-- Without overflow the interval of every round after the first is the
smaller of the doubled second and the steady interval. -/
theorem sleepInterval_eq_min (D : Int) (h0 : 0 ≤ D) (h1 : D < (2 : Int) ^ 62) (i : Nat)
    (hi : 1 ≤ i) : sleepInterval D i = min ((2 : Int) ^ i * time.Second) D := by
  induction i, hi using Nat.le_induction with
  | base =>
    rw [sleepInterval_succ, sleepInterval_zero]
    unfold time.Second
    rw [wrapInt64_of_range _ (by norm_num) (by norm_num)]
    rw [min_def]
    split_ifs <;> omega
  | succ i hi ih =>
    rw [sleepInterval_succ, ih]
    have hpos := two_pow_second_pos i
    have hpow : (2 : Int) ^ (i + 1) * time.Second = 2 * ((2 : Int) ^ i * time.Second) := by
      rw [pow_succ]
      ring
    rw [hpow]
    generalize (2 : Int) ^ i * time.Second = P at hpos ⊢
    have hd0 : 0 ≤ min P D := le_min (le_of_lt hpos) h0
    have hd1 : min P D ≤ D := min_le_right _ _
    rw [wrapInt64_of_range _ (by omega) (by omega)]
    rw [min_def, min_def]
    rw [min_def] at hd0 hd1
    split_ifs at hd0 hd1 ⊢ <;> omega

/-- Without overflow every interval after the first is the doubled previous
one, capped at the steady interval. -/
theorem sleepInterval_succ_eq_min (D : Int) (h0 : time.Second ≤ D) (h1 : D < (2 : Int) ^ 62)
    (i : Nat) : sleepInterval D (i + 1) = min (2 * sleepInterval D i) D := by
  have hD : 0 ≤ D := le_trans (by decide) h0
  have hb : time.Second ≤ sleepInterval D i ∧ sleepInterval D i ≤ D := by
    cases i with
    | zero =>
      rw [sleepInterval_zero]
      exact ⟨le_refl _, h0⟩
    | succ i =>
      rw [sleepInterval_eq_min D hD h1 _ (by omega)]
      refine ⟨le_min ?_ h0, min_le_right _ _⟩
      have h2 : (1 : Int) ≤ 2 ^ (i + 1) := one_le_pow₀ (by norm_num)
      unfold time.Second
      omega
  have hs : (0 : Int) ≤ time.Second := by decide
  rw [sleepInterval_succ, wrapInt64_of_range _ (by omega) (by omega), min_def]
  split_ifs <;> omega

/-- C12: for the poll interval of 10 seconds, the only steady interval that the
resolver passes to `fastStartTicker`, the sleep intervals are 1, 2, 4 and 8
seconds and 10 seconds in every later round.  So it is for every steady
interval from one second up to, but not including, `2^62` nanoseconds (from
where on the doubling can overflow 64 bits): the first interval is one
second, each next one is the double of the previous one capped at the steady
interval, interval `i` being the smaller of `2^i` seconds and the steady
interval, so the intervals double up to some round and equal the steady
interval from that round on. -/
theorem sleepInterval_ramp :
    (sleepInterval dnsPollInterval 0 = 1 * time.Second ∧
      (∀ i : Nat, i < 4 → sleepInterval dnsPollInterval i = 2 ^ i * time.Second) ∧
      (∀ i : Nat, 4 ≤ i → sleepInterval dnsPollInterval i = dnsPollInterval) ∧
      (List.range 6).map (sleepInterval dnsPollInterval) =
        [1 * time.Second, 2 * time.Second, 4 * time.Second, 8 * time.Second,
          10 * time.Second, 10 * time.Second]) ∧
    (∀ D : Int, time.Second ≤ D → D < (2 : Int) ^ 62 →
      sleepInterval D 0 = time.Second ∧
      (∀ i : Nat, sleepInterval D (i + 1) = min (2 * sleepInterval D i) D) ∧
      (∀ i : Nat, sleepInterval D i = min ((2 : Int) ^ i * time.Second) D) ∧
      (∃ k : Nat, (∀ i, i < k → sleepInterval D i = 2 ^ i * time.Second) ∧
        (∀ i, k ≤ i → sleepInterval D i = D))) := by
  have hmono : ∀ i j : Nat, i ≤ j → (2 : Int) ^ i * time.Second ≤ 2 ^ j * time.Second := by
    intro i j hij
    have h2 : (2 : Int) ^ i ≤ 2 ^ j := pow_le_pow_right₀ (by norm_num) hij
    unfold time.Second
    omega
  have hgen : ∀ D : Int, time.Second ≤ D → D < (2 : Int) ^ 62 →
      ∀ i : Nat, sleepInterval D i = min ((2 : Int) ^ i * time.Second) D := by
    intro D h0 h1 i
    have hD : 0 ≤ D := le_trans (by decide) h0
    cases i with
    | zero =>
      rw [sleepInterval_zero]
      simp only [pow_zero, one_mul]
      exact (min_eq_left h0).symm
    | succ i => exact sleepInterval_eq_min D hD h1 _ (by omega)
  refine ⟨⟨by decide, ?_, ?_, by decide⟩, ?_⟩
  · intro i hi
    interval_cases i <;> decide
  · intro i hi
    rw [hgen dnsPollInterval (by decide) (by decide) i]
    apply min_eq_right
    have h4 := hmono 4 i hi
    have e : dnsPollInterval ≤ 2 ^ 4 * time.Second := by decide
    exact le_trans e h4
  · intro D h0 h1
    have hD : 0 ≤ D := le_trans (by decide) h0
    refine ⟨sleepInterval_zero D, sleepInterval_succ_eq_min D h0 h1, hgen D h0 h1, ?_⟩
    have hex : ∃ k : Nat, D ≤ 2 ^ k * time.Second := by
      refine ⟨D.toNat, ?_⟩
      have h2 : D.toNat < 2 ^ D.toNat := Nat.lt_two_pow D.toNat
      have h3 : ((D.toNat : Nat) : Int) < ((2 ^ D.toNat : Nat) : Int) := by exact_mod_cast h2
      have h4 : ((D.toNat : Nat) : Int) = D := Int.toNat_of_nonneg hD
      rw [h4] at h3
      push_cast at h3
      unfold time.Second
      omega
    refine ⟨Nat.find hex, ?_, ?_⟩
    · intro i hi
      have hlt : ¬ D ≤ 2 ^ i * time.Second := Nat.find_min hex hi
      rw [hgen D h0 h1 i]
      exact min_eq_left (by omega)
    · intro i hi
      have hle : D ≤ 2 ^ i * time.Second := le_trans (Nat.find_spec hex) (hmono _ _ hi)
      rw [hgen D h0 h1 i]
      exact min_eq_right hle

/-- Witness of `sleepInterval_ramp`: a steady interval of 30 seconds. -/
theorem sleepInterval_ramp_witness :
    time.Second ≤ 30 * time.Second ∧ 30 * time.Second < (2 : Int) ^ 62 ∧
    sleepInterval (30 * time.Second) 0 = time.Second ∧
    (∀ i : Nat, sleepInterval (30 * time.Second) (i + 1) =
      min (2 * sleepInterval (30 * time.Second) i) (30 * time.Second)) ∧
    (∃ k : Nat, (∀ i, i < k → sleepInterval (30 * time.Second) i = 2 ^ i * time.Second) ∧
      (∀ i, k ≤ i → sleepInterval (30 * time.Second) i = 30 * time.Second)) :=
  ⟨by decide, by decide,
    (sleepInterval_ramp.2 (30 * time.Second) (by decide) (by decide)).1,
    (sleepInterval_ramp.2 (30 * time.Second) (by decide) (by decide)).2.1,
    (sleepInterval_ramp.2 (30 * time.Second) (by decide) (by decide)).2.2.2⟩

set_option maxRecDepth 8192 in
/-- C19 (the claim as stated fails): for the steady interval of `2^63 - 1`
nanoseconds, the largest `int64`, round 33 sleeps `2^33` seconds and the
doubling wraps around: round 34 sleeps a negative interval. -/
theorem sleepInterval_wraps_negative :
    sleepInterval (2 ^ 63 - 1) 33 = 8589934592000000000 ∧
    sleepInterval (2 ^ 63 - 1) 34 = -1266874889709551616 ∧
    ¬ (∀ D : Int, time.Second ≤ D → D < 2 ^ 63 →
        ∀ i : Nat, time.Second ≤ sleepInterval D i ∧ sleepInterval D i ≤ D) := by
  have e34 : sleepInterval (2 ^ 63 - 1) 34 = -1266874889709551616 := by decide
  refine ⟨by decide, e34, fun h => ?_⟩
  have h1 := (h (2 ^ 63 - 1) (by decide) (by decide) 34).1
  rw [e34] at h1
  exact absurd h1 (by decide)

/-- C19 (as amended): for a steady interval of at least one second and below
`2^62` nanoseconds, where doubling an interval up to the steady one cannot
overflow 64 bits, every sleep interval of `fastStartTicker` is at least one
second and at most the steady interval. -/
theorem sleepInterval_bounds (D : Int) (h0 : time.Second ≤ D) (h1 : D < (2 : Int) ^ 62)
    (i : Nat) : time.Second ≤ sleepInterval D i ∧ sleepInterval D i ≤ D := by
  cases i with
  | zero =>
    rw [sleepInterval_zero]
    exact ⟨le_refl _, h0⟩
  | succ i =>
    have hD : 0 ≤ D := le_trans (by decide) h0
    rw [sleepInterval_eq_min D hD h1 _ (by omega)]
    refine ⟨le_min ?_ h0, min_le_right _ _⟩
    have h2 : (1 : Int) ≤ 2 ^ (i + 1) := one_le_pow₀ (by norm_num)
    unfold time.Second
    omega

/-- Witness of `sleepInterval_bounds`: round 3 of the poll interval of the
resolver sleeps 8 seconds. -/
theorem sleepInterval_bounds_witness :
    time.Second ≤ sleepInterval dnsPollInterval 3 ∧
    sleepInterval dnsPollInterval 3 ≤ dnsPollInterval :=
  sleepInterval_bounds dnsPollInterval (by decide) (by decide) 3

/-! ## `Stop`, `NewResolver` and the loop -/

theorem resolveOne_frame {ω : Type} (r : staticResolver ω) (t : target) (s : State ω) :
    (r.resolveOne t s).2.quitClosed = s.quitClosed ∧
    (r.resolveOne t s).2.tickPending = s.tickPending ∧
    (r.resolveOne t s).2.loop = s.loop := by
  unfold staticResolver.resolveOne
  cases net.ParseIP t.hostname with
  | some addr => exact ⟨rfl, rfl, rfl⟩
  | none =>
    simp only
    cases (r.lookup t.hostname s.env).1.2 with
    | none => exact ⟨rfl, rfl, rfl⟩
    | some err =>
      by_cases hm : t.hostname ∈ s.failedResolutions
      · simp [hm]
      · simp [hm]

theorem callSetters_frame {ω : Type} (hostname : String) (urls : List url.URL)
    (fs : List (setter ω)) (i : Nat) (s : State ω) :
    (callSetters hostname urls fs i s).quitClosed = s.quitClosed ∧
    (callSetters hostname urls fs i s).tickPending = s.tickPending ∧
    (callSetters hostname urls fs i s).loop = s.loop := by
  induction fs generalizing i s with
  | nil => exact ⟨rfl, rfl, rfl⟩
  | cons f fs ih =>
    simp only [callSetters]
    exact ih _ _

/-- A resolution pass touches neither the quit channel nor the ticker's
channel nor the control point of the loop. -/
theorem resolveLoop_frame {ω : Type} (r : staticResolver ω) (ts : List target) (s : State ω) :
    (resolveLoop r ts s).quitClosed = s.quitClosed ∧
    (resolveLoop r ts s).tickPending = s.tickPending ∧
    (resolveLoop r ts s).loop = s.loop := by
  induction ts generalizing s with
  | nil => exact ⟨rfl, rfl, rfl⟩
  | cons t ts ih =>
    simp only [resolveLoop]
    obtain ⟨h1, h2, h3⟩ := ih (callSetters t.hostname (makeURLs t (r.resolveOne t s).1) r.setters 0
      (r.resolveOne t s).2)
    obtain ⟨c1, c2, c3⟩ := callSetters_frame t.hostname (makeURLs t (r.resolveOne t s).1)
      r.setters 0 (r.resolveOne t s).2
    obtain ⟨o1, o2, o3⟩ := resolveOne_frame r t s
    exact ⟨by rw [h1, c1, o1], by rw [h2, c2, o2], by rw [h3, c3, o3]⟩

/-- C11 (the claim as stated fails): on the resolver that `NewResolver` returns
for `"localhost"` the first `Stop` completes and the second one panics. -/
theorem Stop_twice_panics :
    ∃ (r : staticResolver Unit) (s₁ s₂ : State Unit),
      NewResolver url.Parse 4040 ["localhost"] (fun _ e => (([], none), e)) []
          { env := (), trace := [], failedResolutions := ∅, quitClosed := false,
            tickPending := false, loop := none } = ((some r, none), s₁) ∧
      r.Stop s₁ = .ok s₂ ∧ r.Stop s₂ = .error "close of closed channel" :=
  ⟨_, _, _, rfl, rfl, rfl⟩

/-- C11 (as amended): `Stop` is one-shot.  With the quit channel open, as
`NewResolver` leaves it, `Stop` closes it and completes; with the quit channel
closed, so after any completed `Stop`, `Stop` panics; the loop never changes
the channel. -/
theorem Stop_one_shot {ω : Type} (r : staticResolver ω) (s : State ω) :
    (s.quitClosed = false → r.Stop s = .ok { s with quitClosed := true }) ∧
    (s.quitClosed = true → r.Stop s = .error "close of closed channel") ∧
    (∀ s' : State ω, r.Stop s = .ok s' → r.Stop s' = .error "close of closed channel") ∧
    (∀ (parse : String → Except Error url.URL) (A : Int) (targets : List String)
        (lookup : LookupIP ω) (setters : List (setter ω)) (r' : staticResolver ω)
        (s' : State ω),
      NewResolver parse A targets lookup setters s = ((some r', none), s') →
        s'.quitClosed = false) ∧
    (∀ (c : selectCase) (s' : State ω), r.loopStep c s = some s' →
      s'.quitClosed = s.quitClosed) := by
  refine ⟨?_, ?_, ?_, ?_, ?_⟩
  · intro h
    simp [staticResolver.Stop, h]
  · intro h
    simp [staticResolver.Stop, h]
  · intro s' h
    unfold staticResolver.Stop at h
    by_cases hq : s.quitClosed = true
    · simp [hq] at h
    · simp only [hq, if_false, Except.ok.injEq, Bool.false_eq_true] at h
      subst h
      simp [staticResolver.Stop]
  · intro parse A targets lookup setters r' s' h
    unfold NewResolver at h
    split at h
    · simp at h
    · simp only [Prod.mk.injEq, Option.some.injEq, true_and, and_true] at h
      rw [← h.2]
  · intro c s' h
    unfold staticResolver.loopStep at h
    split at h
    · simp only [Option.some.injEq] at h
      subst h
      exact (resolveLoop_frame r r.targets s).1
    · split at h
      · split_ifs at h
        simp only [Option.some.injEq] at h
        subst h
        exact (resolveLoop_frame r r.targets _).1
      · split_ifs at h
        simp only [Option.some.injEq] at h
        subst h
        rfl
    · cases h

/-- C14 (the claim as stated fails): `NewResolver` for the target `10.0.0.1`
and one setter returns with the goroutine of the loop at its entry and an
empty trace, no setter having been called, although a resolution pass calls
the setter once. -/
theorem NewResolver_returns_before_first_pass :
    ∃ (r : staticResolver Unit) (s₁ : State Unit),
      NewResolver url.Parse 4040 ["10.0.0.1"] (fun _ e => (([], none), e)) [fun _ _ e => e]
          { env := (), trace := [], failedResolutions := ∅, quitClosed := false,
            tickPending := false, loop := none } = ((some r, none), s₁) ∧
      s₁.trace = [] ∧ s₁.loop = some loopPC.entry ∧
      (setEvents (r.resolve s₁).trace).length = 1 :=
  ⟨_, _, rfl, rfl, rfl, by decide⟩

/-- C14 (as amended): on successful construction `NewResolver` starts the
goroutine of the loop and returns the resolver without having added anything
to the trace; the first step of that goroutine, whatever the runtime chooses
and before the loop waits for a tick or for the stop signal, is one complete
resolution pass, every setter being called for every target. -/
theorem NewResolver_starts_loop {ω : Type} (parse : String → Except Error url.URL) (A : Int)
    (targets : List String) (lookup : LookupIP ω) (setters : List (setter ω)) (s : State ω)
    (processed : List target) (h : prepare parse A targets = (processed, none)) :
    ∃ (r : staticResolver ω) (s₁ : State ω),
      NewResolver parse A targets lookup setters s = ((some r, none), s₁) ∧
      r.targets = processed ∧ r.setters = setters ∧
      s₁.trace = s.trace ∧ s₁.env = s.env ∧ s₁.loop = some loopPC.entry ∧
      ∀ c : selectCase, ∃ s₂ : State ω,
        r.loopStep c s₁ = some s₂ ∧ s₂.loop = some loopPC.waiting ∧
        s₂.trace = (r.resolve s₁).trace ∧
        (setEvents s₂.trace).length =
          (setEvents s.trace).length + processed.length * setters.length := by
  refine ⟨{ targets := processed, setters := setters, lookup := lookup },
    { s with failedResolutions := ∅, quitClosed := false, loop := some loopPC.entry },
    ?_, rfl, rfl, rfl, rfl, rfl, ?_⟩
  · unfold NewResolver
    rw [h]
  · intro c
    refine ⟨_, rfl, rfl, rfl, ?_⟩
    exact resolveLoop_setEvents_length _ processed _

/-- Witness of `NewResolver_starts_loop`: two targets and one setter; the
first step of the loop calls the setter twice. -/
theorem NewResolver_starts_loop_witness :
    ∃ (r : staticResolver Unit) (s₁ : State Unit),
      NewResolver url.Parse 4040 ["10.0.0.1", "10.0.0.2:80"] (fun _ e => (([], none), e))
          [fun _ _ e => e]
          { env := (), trace := [], failedResolutions := ∅, quitClosed := false,
            tickPending := false, loop := none } = ((some r, none), s₁) ∧
      r.targets = (prepare url.Parse 4040 ["10.0.0.1", "10.0.0.2:80"]).1 ∧
      r.setters = [fun _ _ e => e] ∧
      s₁.trace = [] ∧ s₁.env = () ∧ s₁.loop = some loopPC.entry ∧
      ∀ c : selectCase, ∃ s₂ : State Unit,
        r.loopStep c s₁ = some s₂ ∧ s₂.loop = some loopPC.waiting ∧
        s₂.trace = (r.resolve s₁).trace ∧
        (setEvents s₂.trace).length = 0 + 2 * 1 :=
  NewResolver_starts_loop url.Parse 4040 ["10.0.0.1", "10.0.0.2:80"] _ _ _ _ (by decide)

/-- C15 (the claim as stated fails): with the quit channel closed and a tick
pending, the loop at its wait point can take the tick: it runs one more
resolution pass, which calls the setter, and waits again. -/
theorem loop_takes_tick_after_stop :
    ∃ s' : State Unit,
      ({ setters := [fun _ _ e => e],
         targets := [⟨"http://10.0.0.1", ⟨"http", "", none, "10.0.0.1", "", "", "", ""⟩,
                      "10.0.0.1", 4040⟩],
         lookup := fun _ e => (([], none), e) } : staticResolver Unit).loopStep selectCase.tick
        { env := (), trace := [], failedResolutions := ∅, quitClosed := true,
          tickPending := true, loop := some loopPC.waiting } = some s' ∧
      s'.loop = some loopPC.waiting ∧
      s'.trace =
        [Event.set 0 "10.0.0.1" [⟨"http", "", none, "10.0.0.1:4040", "", "", "", ""⟩]] :=
  ⟨_, rfl, rfl, by decide⟩

/-- C15 (as amended): once the quit channel is closed, the loop at its wait
point can always return, calling no setter, and returns when no tick is
pending; when a tick is pending as well, both cases of the `select` can
proceed and the runtime chooses: the loop returns, or it runs one more
resolution pass and waits again with the quit channel still closed; after it
has returned it takes no step. -/
theorem loop_after_stop {ω : Type} (r : staticResolver ω) (s : State ω)
    (hw : s.loop = some loopPC.waiting) (hq : s.quitClosed = true) :
    r.loopStep selectCase.quit s = some { s with loop := some loopPC.returned } ∧
    (s.tickPending = false → r.loopStep selectCase.tick s = none) ∧
    (s.tickPending = true →
      r.loopStep selectCase.tick s = some (r.resolve { s with tickPending := false }) ∧
      (r.resolve { s with tickPending := false }).loop = some loopPC.waiting ∧
      (r.resolve { s with tickPending := false }).quitClosed = true) ∧
    (∀ c : selectCase, r.loopStep c { s with loop := some loopPC.returned } = none) := by
  refine ⟨?_, ?_, ?_, ?_⟩
  · simp [staticResolver.loopStep, hw, hq]
  · intro ht
    simp [staticResolver.loopStep, hw, ht]
  · intro ht
    refine ⟨by simp [staticResolver.loopStep, hw, ht], ?_, ?_⟩
    · rw [staticResolver.resolve, (resolveLoop_frame r r.targets _).2.2]
      exact hw
    · rw [staticResolver.resolve, (resolveLoop_frame r r.targets _).1]
      exact hq
  · intro c
    simp [staticResolver.loopStep]

/-- Witness of `loop_after_stop`: the quit channel closed and no tick
pending; the loop returns. -/
theorem loop_after_stop_witness :
    ({ setters := [], targets := [], lookup := fun _ e => (([], none), e) } :
        staticResolver Unit).loopStep selectCase.tick
      { env := (), trace := [], failedResolutions := ∅, quitClosed := true,
        tickPending := false, loop := some loopPC.waiting } = none :=
  (loop_after_stop _ _ rfl rfl).2.1 rfl

/-! ## `makeURLs` on the addresses of `resolveOne` -/

theorem strconv.digit_char_plain (k : Nat) (hk : k < 10) :
    Char.ofNat ('0'.toNat + k) ≠ ':' ∧ Char.ofNat ('0'.toNat + k) ≠ '%' := by
  interval_cases k <;> decide

theorem strconv.natDigits_plain (fuel n : Nat) (acc : List Char) :
    ∀ c ∈ strconv.natDigits fuel n acc, c ∈ acc ∨ (c ≠ ':' ∧ c ≠ '%') := by
  induction fuel generalizing n acc with
  | zero =>
    intro c hc
    exact Or.inl hc
  | succ fuel ih =>
    intro c hc
    simp only [strconv.natDigits] at hc
    have hd := strconv.digit_char_plain (n % 10) (Nat.mod_lt _ (by decide))
    split_ifs at hc
    · rcases List.mem_cons.1 hc with rfl | hc
      · exact Or.inr hd
      · exact Or.inl hc
    · rcases ih _ _ c hc with hc | hc
      · rcases List.mem_cons.1 hc with rfl | hc
        · exact Or.inr hd
        · exact Or.inl hc
      · exact Or.inr hc

/-- The decimal form of a natural number has neither a colon nor a percent
sign. -/
theorem strconv.Itoa_nat_plain (n : Nat) :
    ∀ c ∈ (strconv.Itoa (n : Int)).data, c ≠ ':' ∧ c ≠ '%' := by
  intro c hc
  have hn : ¬ ((n : Int) < 0) := by omega
  simp only [strconv.Itoa, hn, if_false, Int.natAbs_ofNat] at hc
  rcases strconv.natDigits_plain _ _ _ c hc with h | h
  · simp at h
  · exact h

theorem net.To4_some_length (ip p : net.IP) (h : ip.To4 = some p) :
    p.length = 4 ∧ ip.length ≠ 0 := by
  unfold net.IP.To4 at h
  simp only [net.IPv4len, net.IPv6len] at h
  split_ifs at h with h1 h2
  · simp only [Option.some.injEq] at h
    subst h
    exact ⟨h1, by omega⟩
  · simp only [Option.some.injEq] at h
    subst h
    refine ⟨?_, by omega⟩
    simp only [List.length_drop, List.length_take]
    omega

/-- The string form of an address that has a 4 byte form is dotted decimal: it
has neither a colon nor a percent sign. -/
theorem net.String_of_To4_plain (ip : net.IP) (h : ip.To4 ≠ none) :
    ':' ∉ ip.String.data ∧ '%' ∉ ip.String.data := by
  cases hp : ip.To4 with
  | none => exact absurd hp h
  | some p =>
    obtain ⟨hlen, hne⟩ := net.To4_some_length ip p hp
    match p, hlen with
    | [a, b, c, d], _ =>
      have hs : ip.String =
          strconv.Itoa a.val ++ "." ++ strconv.Itoa b.val ++ "." ++
            strconv.Itoa c.val ++ "." ++ strconv.Itoa d.val := by
        unfold net.IP.String
        rw [if_neg hne, hp]
      have hdot : ∀ x ∈ (".": String).data, x ≠ ':' ∧ x ≠ '%' := by decide
      have hall : ∀ x ∈ ip.String.data, x ≠ ':' ∧ x ≠ '%' := by
        intro x hx
        rw [hs] at hx
        simp only [String.data_append, List.mem_append] at hx
        rcases hx with (((((hx | hx) | hx) | hx) | hx) | hx) | hx
        · exact strconv.Itoa_nat_plain _ x hx
        · exact hdot x hx
        · exact strconv.Itoa_nat_plain _ x hx
        · exact hdot x hx
        · exact strconv.Itoa_nat_plain _ x hx
        · exact hdot x hx
        · exact strconv.Itoa_nat_plain _ x hx
      exact ⟨fun hm => (hall _ hm).1 rfl, fun hm => (hall _ hm).2 rfl⟩

/-- Every address that `resolveOne` returns is the dotted decimal form of an
IPv4 address. -/
theorem resolveOne_addresses_plain {ω : Type} (r : staticResolver ω) (t : target)
    (s : State ω) : ∀ ip ∈ (r.resolveOne t s).1, ':' ∉ ip.data ∧ '%' ∉ ip.data := by
  have hloop : ∀ addrs : List net.IP, ∀ ip ∈ endpointsLoop addrs [],
      ':' ∉ ip.data ∧ '%' ∉ ip.data := by
    intro addrs ip hip
    rw [endpointsLoop_eq] at hip
    simp only [List.nil_append, List.mem_map, List.mem_filter] at hip
    obtain ⟨a, ⟨-, ha⟩, rfl⟩ := hip
    apply net.String_of_To4_plain
    intro hnone
    rw [hnone] at ha
    exact absurd ha (by decide)
  intro ip hip
  rw [resolveOne_endpoints] at hip
  split at hip
  · exact hloop _ ip hip
  · split at hip
    · simp at hip
    · exact hloop _ ip hip

theorem net.JoinHostPort_plain (host port : String) (h1 : ':' ∉ host.data)
    (h2 : '%' ∉ host.data) : net.JoinHostPort host port = host ++ ":" ++ port := by
  have e1 : (strings.indexByteL host.data ':').isSome = false := by
    rw [← Bool.not_eq_true, strings.indexByteL_isSome_iff]
    exact h1
  have e2 : (strings.indexByteL host.data '%').isSome = false := by
    rw [← Bool.not_eq_true, strings.indexByteL_isSome_iff]
    exact h2
  simp [net.JoinHostPort, e1, e2]

/-- C6: for every target `t` and every list of addresses `ips`, `makeURLs t ips`
has exactly `len(ips)` elements, the element at each position belongs to the
address at that position, and it is the url of the target in every field
except `Host`, which is `net.JoinHostPort` of the address and the port in
decimal, that is `address:port` for every address without colon and percent
sign; the addresses that `makeURLs` receives, those that `resolveOne` returns,
are all of that kind, so their endpoints have the host `address:port`; the
url that `t.url` points to is the same after the call as before. -/
theorem makeURLs_spec (t : target) (ips : List String) :
    (makeURLs t ips).length = ips.length ∧
    makeURLs t ips =
      ips.map (fun ip => { t.url with Host := net.JoinHostPort ip (strconv.Itoa t.port) }) ∧
    (∀ (i : Nat) (ip : String), ips.get? i = some ip →
      ∃ u, (makeURLs t ips).get? i = some u ∧
        u.Scheme = t.url.Scheme ∧ u.Opaque = t.url.Opaque ∧ u.User = t.url.User ∧
        u.Path = t.url.Path ∧ u.RawPath = t.url.RawPath ∧ u.RawQuery = t.url.RawQuery ∧
        u.Fragment = t.url.Fragment ∧
        u.Host = net.JoinHostPort ip (strconv.Itoa t.port) ∧
        (':' ∉ ip.data → '%' ∉ ip.data → u.Host = ip ++ ":" ++ strconv.Itoa t.port)) ∧
    (∀ (ω : Type) (r : staticResolver ω) (s : State ω),
      (∀ ip ∈ (r.resolveOne t s).1, ':' ∉ ip.data ∧ '%' ∉ ip.data) ∧
      makeURLs t (r.resolveOne t s).1 =
        (r.resolveOne t s).1.map (fun ip =>
          { t.url with Host := ip ++ ":" ++ strconv.Itoa t.port })) ∧
    makeURLsTemplate t ips = t.url := by
  have hm := makeURLs_eq_map t ips
  refine ⟨by rw [hm]; simp, hm, ?_, ?_, ?_⟩
  · intro i ip hi
    refine ⟨{ t.url with Host := net.JoinHostPort ip (strconv.Itoa t.port) }, ?_, rfl, rfl, rfl,
      rfl, rfl, rfl, rfl, rfl, ?_⟩
    · rw [hm, List.get?_eq_getElem?, List.getElem?_map, ← List.get?_eq_getElem?, hi]
      rfl
    · intro h1 h2
      exact net.JoinHostPort_plain ip _ h1 h2
  · intro ω r s
    refine ⟨resolveOne_addresses_plain r t s, ?_⟩
    rw [makeURLs_eq_map]
    apply List.map_congr_left
    intro ip hip
    obtain ⟨h1, h2⟩ := resolveOne_addresses_plain r t s ip hip
    rw [net.JoinHostPort_plain ip _ h1 h2]
  · unfold makeURLsTemplate
    rw [makeURLsLoop_eq]

/-! ## `resolve`: the setters are applied -/

/-- The inner loop of `resolve` applies every setter to the world, in the
order of the list, and records each call. -/
theorem callSetters_eq {ω : Type} (hostname : String) (urls : List url.URL)
    (fs : List (setter ω)) (i : Nat) (s : State ω) :
    callSetters hostname urls fs i s =
      { s with
        env := fs.foldl (fun e f => f hostname urls e) s.env
        trace := s.trace ++
          (List.range fs.length).map (fun j => Event.set (i + j) hostname urls) } := by
  induction fs generalizing i s with
  | nil => simp [callSetters]
  | cons f fs ih =>
    simp only [callSetters, ih, List.foldl_cons, List.length_cons, List.range_succ_eq_map,
      List.map_cons, List.map_map, List.append_assoc, List.singleton_append, Nat.add_zero]
    congr 3
    apply List.map_congr_left
    intro j _
    simp only [Function.comp_apply, Nat.succ_eq_add_one]
    congr 1
    omega

theorem resolveLoop_append {ω : Type} (r : staticResolver ω) (a b : List target)
    (s : State ω) : resolveLoop r (a ++ b) s = resolveLoop r b (resolveLoop r a s) := by
  induction a generalizing s with
  | nil => rfl
  | cons t a ih =>
    rw [List.cons_append]
    simp only [resolveLoop]
    exact ih _

/-- The state after the pass over the first `i + 1` targets, from the state
after the pass over the first `i`. -/
theorem resolveLoop_take_succ {ω : Type} (r : staticResolver ω) (ts : List target)
    (s : State ω) (i : Nat) (t : target) (h : ts.get? i = some t) :
    resolveLoop r (ts.take (i + 1)) s =
      { (r.resolveOne t (resolveLoop r (ts.take i) s)).2 with
        env := r.setters.foldl
          (fun e f =>
            f t.hostname (makeURLs t (r.resolveOne t (resolveLoop r (ts.take i) s)).1) e)
          (r.resolveOne t (resolveLoop r (ts.take i) s)).2.env
        trace := (r.resolveOne t (resolveLoop r (ts.take i) s)).2.trace ++
          (List.range r.setters.length).map (fun j =>
            Event.set j t.hostname
              (makeURLs t (r.resolveOne t (resolveLoop r (ts.take i) s)).1)) } := by
  have htake : ts.take (i + 1) = ts.take i ++ [t] := by
    rw [List.take_succ, ← List.get?_eq_getElem?, h]
    rfl
  rw [htake, resolveLoop_append]
  simp only [resolveLoop, callSetters_eq, Nat.zero_add]

/-- C10: one call of `resolve` goes through the targets in the order of
`r.targets`; for each target it runs `resolveOne` and then applies every
setter of `r.setters` to the world, once and in the order of the list, with
the hostname of the target and `makeURLs` of the target and of the endpoints
that `resolveOne` returned, before it turns to the next target: the state
after the first `i + 1` targets is the state after `resolveOne` of target `i`
with the setters applied and their calls recorded.  The calls recorded are
`len(targets) * len(setters)` in all, and the setters are applied all the
same, with no URL, when `resolveOne` returns no endpoint. -/
theorem resolve_calls_setters {ω : Type} (r : staticResolver ω) (s : State ω) :
    r.resolve s = resolveLoop r (r.targets.take r.targets.length) s ∧
    (∀ (i : Nat) (t : target), r.targets.get? i = some t →
      resolveLoop r (r.targets.take (i + 1)) s =
        { (r.resolveOne t (resolveLoop r (r.targets.take i) s)).2 with
          env := r.setters.foldl
            (fun e f =>
              f t.hostname
                (makeURLs t (r.resolveOne t (resolveLoop r (r.targets.take i) s)).1) e)
            (r.resolveOne t (resolveLoop r (r.targets.take i) s)).2.env
          trace := (r.resolveOne t (resolveLoop r (r.targets.take i) s)).2.trace ++
            (List.range r.setters.length).map (fun j =>
              Event.set j t.hostname
                (makeURLs t (r.resolveOne t (resolveLoop r (r.targets.take i) s)).1)) }) ∧
    setEvents (r.resolve s).trace =
      setEvents s.trace ++
        (List.range r.targets.length).flatMap (fun i =>
          match r.targets.get? i with
          | none => []
          | some t =>
            (List.range r.setters.length).map (fun j =>
              Event.set j t.hostname
                (makeURLs t (r.resolveOne t (resolveLoop r (r.targets.take i) s)).1))) ∧
    (setEvents (r.resolve s).trace).length =
      (setEvents s.trace).length + r.targets.length * r.setters.length ∧
    (∀ t : target, makeURLs t [] = []) ∧
    (∀ (t : target) (s' : State ω), (r.resolveOne t s').1 = [] →
      setEvents (resolveLoop r [t] s').trace =
        setEvents s'.trace ++
          (List.range r.setters.length).map (fun j => Event.set j t.hostname []) ∧
      (resolveLoop r [t] s').env =
        r.setters.foldl (fun e f => f t.hostname [] e) (r.resolveOne t s').2.env) := by
  refine ⟨by rw [List.take_length]; rfl, fun i t h => resolveLoop_take_succ r r.targets s i t h,
    resolveLoop_setEvents r r.targets s, resolveLoop_setEvents_length r r.targets s,
    fun _ => rfl, ?_⟩
  intro t s' h
  refine ⟨?_, ?_⟩
  · rw [resolveLoop_setEvents]
    simp [List.range_succ, resolveLoop, h, makeURLs, makeURLsLoop]
  · simp [resolveLoop, callSetters_eq, h, makeURLs, makeURLsLoop]

/-- Witness of `resolve_calls_setters`: two targets and two setters that count
in the world, the first by 1 and the second by 10 for every URL they get; the
pass leaves the world at 22 and records four calls. -/
theorem resolve_calls_setters_witness :
    (({ setters := [fun _ urls n => n + urls.length, fun _ urls n => n + 10 * urls.length],
        targets := [⟨"http://10.0.0.1", ⟨"http", "", none, "10.0.0.1", "", "", "", ""⟩,
                      "10.0.0.1", 4040⟩,
                    ⟨"http://10.0.0.2:80", ⟨"http", "", none, "10.0.0.2:80", "", "", "", ""⟩,
                      "10.0.0.2", 80⟩],
        lookup := fun _ n => (([], none), n) } : staticResolver Nat).resolve
      { env := 0, trace := [], failedResolutions := ∅, quitClosed := false,
        tickPending := false, loop := none }).env = 22 ∧
    (setEvents
      (({ setters := [fun _ urls n => n + urls.length, fun _ urls n => n + 10 * urls.length],
          targets := [⟨"http://10.0.0.1", ⟨"http", "", none, "10.0.0.1", "", "", "", ""⟩,
                        "10.0.0.1", 4040⟩,
                      ⟨"http://10.0.0.2:80", ⟨"http", "", none, "10.0.0.2:80", "", "", "", ""⟩,
                        "10.0.0.2", 80⟩],
          lookup := fun _ n => (([], none), n) } : staticResolver Nat).resolve
        { env := 0, trace := [], failedResolutions := ∅, quitClosed := false,
          tickPending := false, loop := none }).trace).length = 0 + 2 * 2 :=
  ⟨by decide, (resolve_calls_setters _ _).2.2.2.1⟩

end Appclient
